import Mathlib

/-!
Verification of the snapshot/diff pipeline of the `direct` repository.

The development shallowly embeds `scripts/processSnapshots.ts` and
`inventory/src/lib/report.ts`.  Modelling conventions:

* JavaScript numbers are modelled as rationals (`ℚ`); the repository's own
  design notes call for a decimal representation, and every claim under
  study is about decimal rounding, not binary floating point.
* `value.toFixed(3)` rounds to the nearest multiple of `1/1000`, ties toward
  `+∞` (ECMA-262 picks the larger candidate); this is exactly Mathlib's
  `round`.
* `String.prototype.localeCompare` on the ASCII date/timestamp/name strings
  used by the pipeline is modelled by the lexicographic order on `String`.
* `Array.prototype.sort` is a stable sort (ES2019); it is modelled by
  `List.insertionSort`, which is stable for the comparator's preorder.
* The SHA-256 content hash of the serialized item list is modelled by the
  serialized content itself (collisions are assumed absent, so hash equality
  is equality of the canonical item list).
* File-system reads are inputs (`FileInput` carries the parsed CSV rows and
  the file's mtime); writes are recorded as an effect trace.
-/

/-- One item of a snapshot (`SnapshotItem` in `processSnapshots.ts`). -/
structure SnapshotItem where
  name : String
  unit : String
  quantity : ℚ
deriving DecidableEq, Repr

/-- Snapshot metadata (`SnapshotMeta`). -/
structure SnapshotMeta where
  snapshotDate : String
  uploadedAt : String
  sourceFile : String
deriving DecidableEq, Repr

/-- A persisted snapshot (`SnapshotPayload`). -/
structure SnapshotPayload where
  meta : SnapshotMeta
  items : List SnapshotItem
deriving DecidableEq, Repr

/-- One entry of the persisted index (`SnapshotIndexEntry`, which `extends
SnapshotMeta` in the source; the meta fields are inlined here). -/
structure SnapshotIndexEntry where
  snapshotDate : String
  uploadedAt : String
  sourceFile : String
  path : String
  latestForDate : Bool
  totalItems : ℕ
  totalQuantity : ℚ
deriving DecidableEq, Repr

/-- A processed snapshot (`SnapshotRecord`). -/
structure SnapshotRecord where
  payload : SnapshotPayload
  jsonFileName : String
  indexEntry : SnapshotIndexEntry
deriving DecidableEq, Repr

/-- One row of a diff (`ChangeEntry`). -/
structure ChangeEntry where
  name : String
  unit : String
  previousQuantity : ℚ
  quantity : ℚ
  delta : ℚ
deriving DecidableEq, Repr

/-- The `totals` part of a report.  `deltaItems` is an integer because it can
be negative (`current.totalItems - previous.totalItems`). -/
structure ReportTotals where
  items : ℕ
  quantity : ℚ
  deltaItems : ℤ
  deltaQuantity : ℚ
deriving DecidableEq, Repr

/-- The `counts` part of a report. -/
structure ReportCounts where
  new : ℕ
  removed : ℕ
  increased : ℕ
  decreased : ℕ
  unchanged : ℕ
deriving DecidableEq, Repr

/-- A computed change report (`SnapshotReport`). -/
structure SnapshotReport where
  meta : SnapshotMeta
  totals : ReportTotals
  counts : ReportCounts
  newItems : List ChangeEntry
  removedItems : List ChangeEntry
  increases : List ChangeEntry
  decreases : List ChangeEntry
deriving DecidableEq, Repr

/-- `roundQuantity(value) = Number(value.toFixed(3))`: round to 3 decimal
digits, ties toward `+∞` (ECMA `toFixed` picks the larger candidate). -/
def roundQuantity (value : ℚ) : ℚ := (round (value * 1000) : ℚ) / 1000

/-- JS whitespace test for the characters relevant to `String.prototype.trim`. -/
def isJsWs (c : Char) : Bool := c = ' ' ∨ c = '\t' ∨ c = '\n' ∨ c = '\r'

/-- Model of `String.prototype.trim`. -/
def jsTrim (s : String) : String :=
  ⟨((s.data.dropWhile isJsWs).reverse.dropWhile isJsWs).reverse⟩

/-- ASCII lower-casing, for the `/i` regex flag and `toLowerCase()`. -/
def asciiLower (c : Char) : Char :=
  if 'A' ≤ c ∧ c ≤ 'Z' then Char.ofNat (c.toNat + 32) else c

/-- Decimal digit test (`\d` in the filename regex, digits of `Number`). -/
def isDigitChar (c : Char) : Bool := '0' ≤ c ∧ c ≤ '9'

/-- Numeric value of a digit string. -/
def digitsVal (ds : List Char) : ℕ :=
  ds.foldl (fun n c => 10 * n + (c.toNat - 48)) 0

/-- Split a character list into its leading digits and the rest. -/
def readDigits (cs : List Char) : List Char × List Char :=
  (cs.takeWhile isDigitChar, cs.dropWhile isDigitChar)

/-- Parse the optional exponent part of a JS numeric literal; `none` = the
whole literal is invalid (NaN). -/
def readExponent (cs : List Char) : Option ℤ :=
  match cs with
  | [] => some 0
  | 'e' :: rest =>
    match rest with
    | '+' :: r =>
      (fun p : List Char × List Char =>
        if p.1 = [] ∨ p.2 ≠ [] then none else some ((digitsVal p.1 : ℤ))) (readDigits r)
    | '-' :: r =>
      (fun p : List Char × List Char =>
        if p.1 = [] ∨ p.2 ≠ [] then none else some (-(digitsVal p.1 : ℤ))) (readDigits r)
    | r =>
      (fun p : List Char × List Char =>
        if p.1 = [] ∨ p.2 ≠ [] then none else some ((digitsVal p.1 : ℤ))) (readDigits r)
  | 'E' :: rest =>
    match rest with
    | '+' :: r =>
      (fun p : List Char × List Char =>
        if p.1 = [] ∨ p.2 ≠ [] then none else some ((digitsVal p.1 : ℤ))) (readDigits r)
    | '-' :: r =>
      (fun p : List Char × List Char =>
        if p.1 = [] ∨ p.2 ≠ [] then none else some (-(digitsVal p.1 : ℤ))) (readDigits r)
    | r =>
      (fun p : List Char × List Char =>
        if p.1 = [] ∨ p.2 ≠ [] then none else some ((digitsVal p.1 : ℤ))) (readDigits r)
  | _ => none

/-- Apply a decimal exponent to a scaled-decimal value: `(n, k)` stands for
the number `n / 10 ^ k`. -/
def applyExp (n : ℤ) (k : ℕ) (e : ℤ) : ℤ × ℕ :=
  match e with
  | .ofNat m => (n * 10 ^ m, k)
  | .negSucc m => (n, k + (m + 1))

/-- Parse an unsigned JS decimal literal (digits, optional fraction, optional
exponent) into a scaled decimal `(n, k)` standing for `n / 10 ^ k`; `none` =
NaN. -/
def readUnsignedDec (cs : List Char) : Option (ℤ × ℕ) :=
  let ip := (readDigits cs).1
  let rest := (readDigits cs).2
  match rest with
  | '.' :: rest2 =>
    let fp := (readDigits rest2).1
    let rest3 := (readDigits rest2).2
    if ip = [] ∧ fp = [] then none
    else
      (readExponent rest3).map fun e =>
        applyExp ((digitsVal ip * 10 ^ fp.length + digitsVal fp : ℕ) : ℤ) fp.length e
  | _ =>
    if ip = [] then none
    else (readExponent rest).map fun e => applyExp (digitsVal ip : ℤ) 0 e

/-- Model of `Number(s)` followed by the `Number.isFinite` check of
`parseQuantity`, at the level of scaled decimals `(n, k)` (value `n / 10^k`):
`none` when the string converts to NaN or ±Infinity.  Decimal literals are
modelled; the empty / whitespace-only string converts to `0`, and `Infinity`
is non-finite.  (JS hex/octal/binary literals are outside the pipeline's data
and are treated as non-numeric.) -/
def jsFiniteNumberRep (s : String) : Option (ℤ × ℕ) :=
  let t := jsTrim s
  if t.data = [] then some (0, 0)
  else
    match t.data with
    | '-' :: rest =>
      if rest = "Infinity".data then none
      else (readUnsignedDec rest).map (fun p => (-p.1, p.2))
    | '+' :: rest =>
      if rest = "Infinity".data then none else readUnsignedDec rest
    | cs => if cs = "Infinity".data then none else readUnsignedDec cs

/-- The rational value of `Number(s)`, `none` for a non-finite result. -/
def jsFiniteNumber (s : String) : Option ℚ :=
  (jsFiniteNumberRep s).map fun p => (p.1 : ℚ) / 10 ^ p.2

/-- `value.replace(/,/g, "")`. -/
def stripCommas (s : String) : String := ⟨s.data.filter (fun c => c ≠ ',')⟩

/-- `parseQuantity` of `processSnapshots.ts`: a missing or empty cell yields
`0`; otherwise strip grouping commas and convert; a non-finite conversion
yields NaN, modelled as `none`. -/
def parseQuantity (value : Option String) : Option ℚ :=
  match value with
  | none => some 0
  | some v => if v = "" then some 0 else jsFiniteNumber (stripCommas v)

/-- Comparator relation for `items.sort((a, b) => a.name.localeCompare(b.name))`:
`a` may precede `b` iff the comparator is `≤ 0`. -/
def nameLe (a b : SnapshotItem) : Prop := a.name ≤ b.name

instance : DecidableRel nameLe := fun a b => inferInstanceAs (Decidable (a.name ≤ b.name))

instance : IsTotal SnapshotItem nameLe := ⟨fun a b => le_total a.name b.name⟩

instance : IsTrans SnapshotItem nameLe := ⟨fun _ _ _ h h' => le_trans h h'⟩

/-- The canonical name-sort of an item list (a stable JS `sort`). -/
def sortItemsByName (items : List SnapshotItem) : List SnapshotItem :=
  List.insertionSort nameLe items

/-- One parsed CSV row as produced by `csv-parse` with `columns: true` and
`trim: true`; a missing column is `none`. -/
structure CsvRow where
  Name : Option String
  Unit : Option String
  Quantity : Option String
deriving DecidableEq, Repr

/-- The row loop of `processCsv` (lines 235-257): skip a row with a missing
or empty name, skip a duplicate name, skip a row whose quantity is NaN;
otherwise accept the item and remember its name. -/
def ingestGo : List CsvRow → List String → List SnapshotItem
  | [], _ => []
  | row :: rest, seen =>
    match row.Name.map jsTrim with
    | none => ingestGo rest seen
    | some name =>
      if name = "" then ingestGo rest seen
      else if name ∈ seen then ingestGo rest seen
      else
        match parseQuantity (row.Quantity.map jsTrim) with
        | none => ingestGo rest seen
        | some q => ⟨name, (row.Unit.map jsTrim).getD "", q⟩ :: ingestGo rest (name :: seen)

/-- All accepted items of a file, in row order (before the name sort). -/
def ingestRows (rows : List CsvRow) : List SnapshotItem := ingestGo rows []

/-- Match the fixed-length tail `stock-items_MM_DD_YYYY.csv` (lower-cased)
and return `YYYY-MM-DD`. -/
def matchStockSuffix : List Char → Option String
  | ['s','t','o','c','k','-','i','t','e','m','s','_', m1, m2, '_', d1, d2, '_',
     y1, y2, y3, y4, '.','c','s','v'] =>
    if isDigitChar m1 && isDigitChar m2 && isDigitChar d1 && isDigitChar d2 &&
       isDigitChar y1 && isDigitChar y2 && isDigitChar y3 && isDigitChar y4 then
      some ⟨[y1, y2, y3, y4, '-', m1, m2, '-', d1, d2]⟩
    else none
  | _ => none

/-- `deriveSnapshotDate`: the regex `/stock-items_(\d{2})_(\d{2})_(\d{4})\.csv$/i`
is anchored at the end and has fixed length 26, so it matches iff the
lower-cased last 26 characters have that shape; `none` models the thrown
error. -/
def deriveSnapshotDate (fileName : String) : Option String :=
  let low := fileName.data.map asciiLower
  if low.length < 26 then none
  else matchStockSuffix (low.drop (low.length - 26))

/-- `.replace(/\.\d{3}Z$/, "Z")`. -/
def stripMsSuffix (cs : List Char) : List Char :=
  match cs.reverse with
  | 'Z' :: c3 :: c2 :: c1 :: '.' :: rest =>
    if isDigitChar c1 && isDigitChar c2 && isDigitChar c3 then ('Z' :: rest).reverse else cs
  | _ => cs

/-- `generateSnapshotFileName`: drop `-` and `:` from the timestamp and strip
the millisecond part.  (`new Date(uploadedAt).toISOString()` is modelled as
the identity: the pipeline only feeds it ISO timestamps it produced itself.) -/
def generateSnapshotFileName (snapshotDate uploadedAt : String) : String :=
  let stamp : String := ⟨stripMsSuffix (uploadedAt.data.filter (fun c => c ≠ '-' ∧ c ≠ ':'))⟩
  snapshotDate ++ "_" ++ stamp ++ ".json"

/-- `hashItems`: SHA-256 of `JSON.stringify(items)`, modelled by the
canonical content itself (hash equality = equality of the serialized list,
collisions assumed absent). -/
def hashItems (items : List SnapshotItem) : List SnapshotItem := items

/-- One bucket entry of the prior-history lookup (`ExistingSnapshotRecord`). -/
structure ExistingSnapshotRecord where
  key : String
  hash : List SnapshotItem
  meta : SnapshotMeta
  fileName : String
deriving DecidableEq, Repr

/-- The prior-history lookup (`ExistingSnapshots`), a JS `Map` modelled as an
association list with unique keys in insertion order. -/
abbrev ExistingSnapshots := List (String × List ExistingSnapshotRecord)

/-- `Map.prototype.get`. -/
def mapGet (m : ExistingSnapshots) (k : String) : Option (List ExistingSnapshotRecord) :=
  (m.find? (fun p => p.1 == k)).map (fun p => p.2)

/-- `Map.prototype.set` on a key that may or may not be present. -/
def mapSet (m : ExistingSnapshots) (k : String) (v : List ExistingSnapshotRecord) :
    ExistingSnapshots :=
  if m.any (fun p => p.1 == k) then m.map (fun p => if p.1 == k then (k, v) else p)
  else m ++ [(k, v)]

/-- `Map.prototype.delete`. -/
def mapDelete (m : ExistingSnapshots) (k : String) : ExistingSnapshots :=
  m.filter (fun p => p.1 != k)

/-- `makeExistingKey`. -/
def makeExistingKey (sourceFile snapshotDate : String) : String :=
  snapshotDate ++ "::" ++ sourceFile

/-- `bucket.findIndex(entry => entry.hash === hash)` followed by
`bucket.splice(index, 1)`, in one pass: remove and return the first entry
with the given hash. -/
def takeFromBucket (hash : List SnapshotItem) :
    List ExistingSnapshotRecord → Option ExistingSnapshotRecord × List ExistingSnapshotRecord
  | [] => (none, [])
  | e :: rest =>
    if e.hash = hash then (some e, rest)
    else
      let r := takeFromBucket hash rest
      (r.1, e :: r.2)

/-- `takeExistingSnapshot`: consume the first hash-matching entry of the
bucket for `key`, deleting the bucket when it becomes empty. -/
def takeExistingSnapshot (existingSnapshots : ExistingSnapshots) (key : String)
    (hash : List SnapshotItem) : Option ExistingSnapshotRecord × ExistingSnapshots :=
  match mapGet existingSnapshots key with
  | none => (none, existingSnapshots)
  | some bucket =>
    if bucket = [] then (none, existingSnapshots)
    else
      let r := takeFromBucket hash bucket
      match r.1 with
      | none => (none, existingSnapshots)
      | some record =>
        if r.2 = [] then (some record, mapDelete existingSnapshots key)
        else (some record, mapSet existingSnapshots key r.2)

/-- One raw input file: its directory-entry name, its parsed CSV rows, and
its modification time as an ISO string (`determineUploadTimestamp`). -/
structure FileInput where
  fileName : String
  rows : List CsvRow
  mtime : String
deriving DecidableEq, Repr

/-- `calculateTotals` (identical in `processSnapshots.ts` and `report.ts`):
item count and rounded quantity sum. -/
def calculateTotals (items : List SnapshotItem) : ℕ × ℚ :=
  (items.length, roundQuantity ((items.map (fun i => i.quantity)).sum))

/-- The fatal errors a run can raise in the embedded fragment. -/
inductive RunError where
  | filenamePattern (fileName : String)
deriving DecidableEq, Repr

/-- `processCsv`: derive the snapshot date from the file name (a mismatch is
fatal), ingest and name-sort the rows, resolve identity against the prior
history, and build the snapshot record.  The rows and the file's mtime are
inputs (file-system reads). -/
def processCsv (file : FileInput) (existingSnapshots : ExistingSnapshots) :
    Except RunError (SnapshotRecord × ExistingSnapshots) :=
  match deriveSnapshotDate file.fileName with
  | none => .error (.filenamePattern file.fileName)
  | some snapshotDate =>
    let items := sortItemsByName (ingestRows file.rows)
    let itemsHash := hashItems items
    let existingKey := makeExistingKey file.fileName snapshotDate
    let taken := takeExistingSnapshot existingSnapshots existingKey itemsHash
    let uploadedAt := match taken.1 with
      | some reusable => reusable.meta.uploadedAt
      | none => file.mtime
    let jsonFileName := match taken.1 with
      | some reusable => reusable.fileName
      | none => generateSnapshotFileName snapshotDate file.mtime
    let totals := calculateTotals items
    .ok (⟨⟨⟨snapshotDate, uploadedAt, file.fileName⟩, items⟩,
          jsonFileName,
          ⟨snapshotDate, uploadedAt, file.fileName, "data/snapshots/" ++ jsonFileName,
           false, totals.1, totals.2⟩⟩,
         taken.2)

/-- `new Map(items.map(item => [item.name, item])).get(n)`: the last binding
of a name wins, exactly as in a JS `Map` built from an entry list. -/
def lookupByName (items : List SnapshotItem) (n : String) : Option SnapshotItem :=
  items.foldl (fun acc it => if it.name = n then some it else acc) none

/-- `currentIndex.has(n)`. -/
def hasName (items : List SnapshotItem) (n : String) : Bool :=
  (lookupByName items n).isSome

/-- `createChangeEntry` (identical in both source files): round the stored
quantities; the delta is the override when given, else the rounded
difference. -/
def createChangeEntry (item : SnapshotItem) (previousQuantity : ℚ)
    (deltaOverride : Option ℚ) : ChangeEntry :=
  ⟨item.name, item.unit, roundQuantity previousQuantity, roundQuantity item.quantity,
   deltaOverride.getD (roundQuantity (item.quantity - previousQuantity))⟩

/-- The classification loop of `buildReport` (identical in both source
files): one pass over the current items, producing the unsorted `newItems`,
`increases`, `decreases` lists (in encounter order) and the `unchanged`
count. -/
def classifyItems (previousItems : List SnapshotItem) :
    List SnapshotItem → List ChangeEntry × List ChangeEntry × List ChangeEntry × ℕ
  | [] => ([], [], [], 0)
  | item :: rest =>
    let acc := classifyItems previousItems rest
    match lookupByName previousItems item.name with
    | none => (createChangeEntry item 0 none :: acc.1, acc.2.1, acc.2.2.1, acc.2.2.2)
    | some prior =>
      let delta := roundQuantity (item.quantity - prior.quantity)
      if 0 < delta then
        (acc.1, createChangeEntry item prior.quantity (some delta) :: acc.2.1,
         acc.2.2.1, acc.2.2.2)
      else if delta < 0 then
        (acc.1, acc.2.1, createChangeEntry item prior.quantity (some delta) :: acc.2.2.1,
         acc.2.2.2)
      else (acc.1, acc.2.1, acc.2.2.1, acc.2.2.2 + 1)

/-- The removed-items loop of `buildReport` (identical in both source files):
previous items whose name is absent from the current snapshot, in encounter
order. -/
def removedEntries (previousItems currentItems : List SnapshotItem) : List ChangeEntry :=
  (previousItems.filter (fun it => !(hasName currentItems it.name))).map
    (fun it => ⟨it.name, it.unit, roundQuantity it.quantity, 0, roundQuantity (-it.quantity)⟩)

/-- Comparator relation of `newItems.sort((a, b) => b.quantity - a.quantity)`. -/
def newLe (a b : ChangeEntry) : Prop := b.quantity ≤ a.quantity

/-- Comparator relation of `removedItems.sort((a, b) => b.previousQuantity - a.previousQuantity)`. -/
def remLe (a b : ChangeEntry) : Prop := b.previousQuantity ≤ a.previousQuantity

/-- Comparator relation of `increases.sort((a, b) => b.delta - a.delta)`. -/
def incLe (a b : ChangeEntry) : Prop := b.delta ≤ a.delta

/-- Comparator relation of `decreases.sort((a, b) => Math.abs(a.delta) - Math.abs(b.delta))`
(before the final `.reverse()`). -/
def decAbsLe (a b : ChangeEntry) : Prop := |a.delta| ≤ |b.delta|

instance : DecidableRel newLe := fun a b => inferInstanceAs (Decidable (b.quantity ≤ a.quantity))

instance : DecidableRel remLe :=
  fun a b => inferInstanceAs (Decidable (b.previousQuantity ≤ a.previousQuantity))

instance : DecidableRel incLe := fun a b => inferInstanceAs (Decidable (b.delta ≤ a.delta))

instance : DecidableRel decAbsLe :=
  fun a b => inferInstanceAs (Decidable (|a.delta| ≤ |b.delta|))

instance : IsTotal ChangeEntry newLe := ⟨fun a b => le_total b.quantity a.quantity⟩

instance : IsTrans ChangeEntry newLe := ⟨fun _ _ _ h h' => le_trans h' h⟩

instance : IsTotal ChangeEntry remLe := ⟨fun a b => le_total b.previousQuantity a.previousQuantity⟩

instance : IsTrans ChangeEntry remLe := ⟨fun _ _ _ h h' => le_trans h' h⟩

instance : IsTotal ChangeEntry incLe := ⟨fun a b => le_total b.delta a.delta⟩

instance : IsTrans ChangeEntry incLe := ⟨fun _ _ _ h h' => le_trans h' h⟩

instance : IsTotal ChangeEntry decAbsLe := ⟨fun a b => le_total |a.delta| |b.delta|⟩

instance : IsTrans ChangeEntry decAbsLe := ⟨fun _ _ _ h h' => le_trans h h'⟩

/-- `sortChanges` (identical in both source files): three stable descending
sorts, and for `decreases` an ascending sort by `|delta|` followed by
`.reverse()`. -/
def sortChanges (newItems removedItems increases decreases : List ChangeEntry) :
    List ChangeEntry × List ChangeEntry × List ChangeEntry × List ChangeEntry :=
  (List.insertionSort newLe newItems,
   List.insertionSort remLe removedItems,
   List.insertionSort incLe increases,
   (List.insertionSort decAbsLe decreases).reverse)

/-- `buildReport` of `scripts/processSnapshots.ts`: classify the current
items against the (possibly absent) previous record, sort the change lists,
and take the totals from the records' index entries. -/
def buildReport (current : SnapshotRecord) (previous : Option SnapshotRecord) :
    SnapshotReport :=
  let previousItems := match previous with
    | some p => p.payload.items
    | none => []
  let c := classifyItems previousItems current.payload.items
  let removed := removedEntries previousItems current.payload.items
  let s := sortChanges c.1 removed c.2.1 c.2.2.1
  let prevTotalItems : ℕ := match previous with
    | some p => p.indexEntry.totalItems
    | none => 0
  let prevTotalQuantity : ℚ := match previous with
    | some p => p.indexEntry.totalQuantity
    | none => 0
  ⟨current.payload.meta,
   ⟨current.indexEntry.totalItems,
    current.indexEntry.totalQuantity,
    (current.indexEntry.totalItems : ℤ) - (prevTotalItems : ℤ),
    roundQuantity (current.indexEntry.totalQuantity - prevTotalQuantity)⟩,
   ⟨s.1.length, s.2.1.length, s.2.2.1.length, s.2.2.2.length, c.2.2.2⟩,
   s.1, s.2.1, s.2.2.1, s.2.2.2⟩

/-- The argument object of the library `buildReport`
(`inventory/src/lib/report.ts`, `BuildReportOptions`). -/
structure BuildReportOptions where
  meta : SnapshotMeta
  items : List SnapshotItem
  previousItems : Option (List SnapshotItem)
  previousTotals : Option (ℕ × ℚ)
deriving DecidableEq, Repr

/-- `buildReport` of `inventory/src/lib/report.ts`: name-sort the given
items, default the previous items to `[]` and the previous totals to
`calculateTotals(previousItems)`, then classify, sort and total exactly as
the batch pipeline does. -/
def libBuildReport (options : BuildReportOptions) : SnapshotReport :=
  let items := sortItemsByName options.items
  let previousItems := options.previousItems.getD []
  let previousTotals := options.previousTotals.getD (calculateTotals previousItems)
  let c := classifyItems previousItems items
  let removed := removedEntries previousItems items
  let s := sortChanges c.1 removed c.2.1 c.2.2.1
  let totals := calculateTotals items
  ⟨options.meta,
   ⟨totals.1, totals.2, (totals.1 : ℤ) - (previousTotals.1 : ℤ),
    roundQuantity (totals.2 - previousTotals.2)⟩,
   ⟨s.1.length, s.2.1.length, s.2.2.1.length, s.2.2.2.length, c.2.2.2⟩,
   s.1, s.2.1, s.2.2.1, s.2.2.2⟩

/-- Model of `localeCompare` on the pipeline's ASCII strings: `-1`, `0`, `1`
by the lexicographic order. -/
def strCompare (a b : String) : ℤ := if a < b then -1 else if b < a then 1 else 0

/-- `compareRecords`: by `snapshotDate`, then by `uploadedAt`. -/
def compareRecords (a b : SnapshotRecord) : ℤ :=
  let byDate := strCompare a.payload.meta.snapshotDate b.payload.meta.snapshotDate
  if byDate ≠ 0 then byDate
  else strCompare a.payload.meta.uploadedAt b.payload.meta.uploadedAt

/-- The precedence relation of the stable sort by `compareRecords`. -/
def recordLe (a b : SnapshotRecord) : Prop := compareRecords a b ≤ 0

instance : DecidableRel recordLe := fun a b => inferInstanceAs (Decidable (compareRecords a b ≤ 0))

/-- The previous item list of a diff: the previous record's items, or `[]`
for the first snapshot in the chain. -/
def previousItemsOf (previous : Option SnapshotRecord) : List SnapshotItem :=
  match previous with
  | some p => p.payload.items
  | none => []

/-- Thread the diff engine along an already-sorted record list
(`computeReports` loop): each record is diffed against the immediately
preceding record, the first against `null`. -/
def computeReportsGo :
    List SnapshotRecord → Option SnapshotRecord → List (String × SnapshotReport)
  | [], _ => []
  | r :: rest, previous =>
    (r.jsonFileName, buildReport r previous) :: computeReportsGo rest (some r)

/-- `computeReports`: sort all records of the run by `compareRecords` and
chain the diff engine along that single global order.  The returned
association list models the JS `Map` keyed by `jsonFileName` (entries in
insertion order). -/
def computeReports (records : List SnapshotRecord) : List (String × SnapshotReport) :=
  computeReportsGo (List.insertionSort recordLe records) none

/-- `findLatestRecord`: last element of the globally sorted records. -/
def findLatestRecord (records : List SnapshotRecord) : Option SnapshotRecord :=
  (List.insertionSort recordLe records).getLast?

/-- `latest.indexEntry.latestForDate = true` on one record. -/
def setLatest (r : SnapshotRecord) : SnapshotRecord :=
  ⟨r.payload, r.jsonFileName,
   ⟨r.indexEntry.snapshotDate, r.indexEntry.uploadedAt, r.indexEntry.sourceFile,
    r.indexEntry.path, true, r.indexEntry.totalItems, r.indexEntry.totalQuantity⟩⟩

/-- First-occurrence deduplication, the key order of a JS `Map` built by
insertion. -/
def dedupFirstGo : List String → List String → List String
  | [], _ => []
  | d :: rest, seen =>
    if d ∈ seen then dedupFirstGo rest seen else d :: dedupFirstGo rest (d :: seen)

/-- The distinct snapshot dates in first-occurrence order (`byDate` keys). -/
def dedupFirst (l : List String) : List String := dedupFirstGo l []

/-- Precedence relation for sorting position-tagged records with
`compareRecords` (positions record JS object identity across the stable
in-place sort). -/
def enumRecordLe (a b : ℕ × SnapshotRecord) : Prop := recordLe a.2 b.2

instance : DecidableRel enumRecordLe :=
  fun a b => inferInstanceAs (Decidable (recordLe a.2 b.2))

/-- The `byDate` bucket of one date: the records carrying that date, tagged
with their position, in encounter order. -/
def groupFor (records : List SnapshotRecord) (d : String) : List (ℕ × SnapshotRecord) :=
  records.enum.filter (fun p => p.2.payload.meta.snapshotDate == d)

/-- The position of the record `annotateLatest` marks for date `d`: the last
element of the date's bucket after the stable `compareRecords` sort. -/
def chosenIdx (records : List SnapshotRecord) (d : String) : Option ℕ :=
  ((List.insertionSort enumRecordLe (groupFor records d)).getLast?).map (fun p => p.1)

/-- `annotateLatest`: group the records by `snapshotDate` (keys in
first-occurrence order), sort each group by `compareRecords`, and set
`latestForDate` on the last record of each sorted group. -/
def annotateLatest (records : List SnapshotRecord) : List SnapshotRecord :=
  let dates := dedupFirst (records.map (fun r => r.payload.meta.snapshotDate))
  let chosen := dates.filterMap (chosenIdx records)
  records.enum.map (fun p => if p.1 ∈ chosen then setLatest p.2 else p.2)

/-- `path.basename`, for the POSIX paths the pipeline writes. -/
def basename (p : String) : String :=
  ⟨(p.data.reverse.takeWhile (fun c => c != '/')).reverse⟩

/-- `Map` insertion used by `loadExistingSnapshots`: append to the bucket,
creating it if needed. -/
def mapPush (m : ExistingSnapshots) (k : String) (r : ExistingSnapshotRecord) :
    ExistingSnapshots :=
  match mapGet m k with
  | some bucket => mapSet m k (bucket ++ [r])
  | none => m ++ [(k, [r])]

/-- `loadExistingSnapshots`: rebuild the prior-history lookup from the
persisted index entries together with the snapshot payloads their paths
point at (an unreadable snapshot is simply absent from `stored`). -/
def loadExistingSnapshots (stored : List (SnapshotIndexEntry × SnapshotPayload)) :
    ExistingSnapshots :=
  stored.foldl
    (fun m p =>
      let entry := p.1
      let items := sortItemsByName p.2.items
      let key := makeExistingKey entry.sourceFile entry.snapshotDate
      mapPush m key
        ⟨key, hashItems items, ⟨entry.snapshotDate, entry.uploadedAt, entry.sourceFile⟩,
         basename entry.path⟩)
    []

/-- Precedence relation of the default string sort of `listCsvFiles`. -/
def fileLe (a b : FileInput) : Prop := a.fileName ≤ b.fileName

instance : DecidableRel fileLe := fun a b => inferInstanceAs (Decidable (a.fileName ≤ b.fileName))

instance : IsTotal FileInput fileLe := ⟨fun a b => le_total a.fileName b.fileName⟩

instance : IsTrans FileInput fileLe := ⟨fun _ _ _ h h' => le_trans h h'⟩

/-- `entry.name.toLowerCase().endsWith(".csv")`. -/
def endsWithCsv (s : String) : Bool :=
  match (s.data.map asciiLower).reverse with
  | 'v' :: 's' :: 'c' :: '.' :: _ => true
  | _ => false

/-- `listCsvFiles`: the `.csv` directory entries, name-sorted. -/
def listCsvFiles (files : List FileInput) : List FileInput :=
  List.insertionSort fileLe (files.filter (fun f => endsWithCsv f.fileName))

/-- The storage writes `main` performs, in program order. -/
inductive Effect where
  | clearDerived
  | writeSnapshot (fileName : String)
  | writeIndex
  | writeReports
  | writeLatest
  | writeLatestReport
  | clearLatestOutputs
deriving DecidableEq, Repr

/-- The per-file loop of `main`: process each CSV and write its snapshot;
a fatal `processCsv` error stops the loop at once. -/
def processAll :
    List FileInput → ExistingSnapshots → List SnapshotRecord → List Effect →
      List Effect × Option RunError × List SnapshotRecord
  | [], _, records, effects => (effects, none, records)
  | f :: rest, ex, records, effects =>
    match processCsv f ex with
    | .error e => (effects, some e, records)
    | .ok r =>
      processAll rest r.2 (records ++ [r.1]) (effects ++ [.writeSnapshot r.1.jsonFileName])

/-- `main` as a trace of storage writes plus an optional fatal error:
load the prior history, clear the derived directories, then process the
sorted CSV list (writing each snapshot as it is produced), and finally write
index, reports and the latest artifacts.  An empty input directory writes an
empty index and null latest artifacts. -/
def runMain (files : List FileInput) (existing : ExistingSnapshots) :
    List Effect × Option RunError :=
  let effects0 := [Effect.clearDerived]
  let csvFiles := listCsvFiles files
  if csvFiles = [] then (effects0 ++ [.writeIndex, .clearLatestOutputs], none)
  else
    let result := processAll csvFiles existing [] effects0
    match result.2.1 with
    | some e => (result.1, some e)
    | none => (result.1 ++ [.writeIndex, .writeReports, .writeLatest, .writeLatestReport], none)

/-- A quantity is a fixed point of the 3-decimal rounding, i.e. it carries
exactly 3 decimal digits. -/
def roundFixed (e : ChangeEntry) : Prop :=
  e.previousQuantity = roundQuantity e.previousQuantity ∧
    e.quantity = roundQuantity e.quantity ∧ e.delta = roundQuantity e.delta

/-- The bucket stored under a key (empty when the key is absent). -/
def bucketOf (m : ExistingSnapshots) (k : String) : List ExistingSnapshotRecord :=
  (mapGet m k).getD []

/-- The snapshot record the batch pipeline carries for a given meta and item
list: index-entry totals are `calculateTotals` of the items (as built by
`processCsv`). -/
def mkPipelineRecord (meta : SnapshotMeta) (items : List SnapshotItem) (fname : String) :
    SnapshotRecord :=
  ⟨⟨meta, items⟩, fname,
   ⟨meta.snapshotDate, meta.uploadedAt, meta.sourceFile, "data/snapshots/" ++ fname, false,
    (calculateTotals items).1, (calculateTotals items).2⟩⟩

/-- The spec's rounding test input: one row with quantity `13.9199999` in a
file for 2025-09-30. -/
def sampleRoundingFile : FileInput :=
  ⟨"stock-items_09_30_2025.csv", [⟨some "Item", some "kg", some "13.9199999"⟩],
   "2025-09-30T12:00:00.000Z"⟩

theorem strCompare_le_iff (a b : String) : strCompare a b ≤ 0 ↔ a ≤ b := by
  unfold strCompare
  rcases lt_trichotomy a b with h | rfl | h
  · rw [if_pos h]
    simpa using h.le
  · simp
  · rw [if_neg (asymm h), if_pos h]
    simpa using (not_le.mpr h)

theorem recordLe_iff (a b : SnapshotRecord) :
    recordLe a b ↔
      a.payload.meta.snapshotDate < b.payload.meta.snapshotDate ∨
        (a.payload.meta.snapshotDate = b.payload.meta.snapshotDate ∧
          a.payload.meta.uploadedAt ≤ b.payload.meta.uploadedAt) := by
  unfold recordLe compareRecords
  rcases lt_trichotomy a.payload.meta.snapshotDate b.payload.meta.snapshotDate with h | h | h
  · unfold strCompare
    rw [if_pos h]
    simp [h]
  · rw [h]
    rw [show strCompare b.payload.meta.snapshotDate b.payload.meta.snapshotDate = 0 from by
      unfold strCompare
      simp]
    simp [strCompare_le_iff]
  · unfold strCompare
    rw [if_neg (asymm h), if_pos h]
    simp [asymm h, ne_of_gt h, (ne_of_gt h).symm]

instance : IsTotal SnapshotRecord recordLe := by
  constructor
  intro a b
  rw [recordLe_iff, recordLe_iff]
  rcases lt_trichotomy a.payload.meta.snapshotDate b.payload.meta.snapshotDate with h | h | h
  · exact Or.inl (Or.inl h)
  · rcases le_total a.payload.meta.uploadedAt b.payload.meta.uploadedAt with h' | h'
    · exact Or.inl (Or.inr ⟨h, h'⟩)
    · exact Or.inr (Or.inr ⟨h.symm, h'⟩)
  · exact Or.inr (Or.inl h)

instance : IsTrans SnapshotRecord recordLe := by
  constructor
  intro a b c hab hbc
  rw [recordLe_iff] at hab hbc ⊢
  rcases hab with h1 | ⟨h1, h1'⟩
  · rcases hbc with h2 | ⟨h2, _⟩
    · exact Or.inl (h1.trans h2)
    · exact Or.inl (h2 ▸ h1)
  · rcases hbc with h2 | ⟨h2, h2'⟩
    · exact Or.inl (h1 ▸ h2)
    · exact Or.inr ⟨h1.trans h2, h1'.trans h2'⟩

instance : IsTotal (ℕ × SnapshotRecord) enumRecordLe :=
  ⟨fun a b => IsTotal.total (r := recordLe) a.2 b.2⟩

instance : IsTrans (ℕ × SnapshotRecord) enumRecordLe :=
  ⟨fun _ _ _ h h' => IsTrans.trans (r := recordLe) _ _ _ h h'⟩

theorem roundQuantity_zero : roundQuantity 0 = 0 := by
  simp [roundQuantity]

theorem roundQuantity_idem (v : ℚ) : roundQuantity (roundQuantity v) = roundQuantity v := by
  unfold roundQuantity
  rw [div_mul_cancel₀ _ (by norm_num : (1000 : ℚ) ≠ 0), round_intCast]

theorem lookupByName_go (n : String) (items : List SnapshotItem) (acc : Option SnapshotItem) :
    (items.foldl (fun acc it => if it.name = n then some it else acc) acc).isSome =
      (items.any (fun it => it.name == n) || acc.isSome) := by
  induction items generalizing acc with
  | nil => simp
  | cons it rest ih =>
    simp only [List.foldl_cons, List.any_cons]
    rw [ih]
    by_cases h : it.name = n
    · simp [h]
    · rw [show (it.name == n) = false from beq_eq_false_iff_ne.mpr h]
      simp [h]

theorem hasName_iff (items : List SnapshotItem) (n : String) :
    hasName items n = true ↔ ∃ it ∈ items, it.name = n := by
  unfold hasName lookupByName
  rw [lookupByName_go]
  simp

theorem classifyItems_partition (prev : List SnapshotItem) (items : List SnapshotItem) :
    (classifyItems prev items).1.length + (classifyItems prev items).2.1.length +
      (classifyItems prev items).2.2.1.length + (classifyItems prev items).2.2.2 =
        items.length := by
  induction items with
  | nil => rfl
  | cons item rest ih =>
    unfold classifyItems
    cases h : lookupByName prev item.name with
    | none =>
      dsimp only
      simp only [List.length_cons]
      omega
    | some prior =>
      dsimp only
      split_ifs <;> simp only [List.length_cons] <;> omega

theorem removedEntries_length (prev current : List SnapshotItem) :
    (removedEntries prev current).length =
      (prev.filter (fun it => !(hasName current it.name))).length := by
  unfold removedEntries
  rw [List.length_map]

theorem report_counts_eq (current : SnapshotRecord) (previous : Option SnapshotRecord) :
    (buildReport current previous).counts =
      ⟨(classifyItems (previousItemsOf previous) current.payload.items).1.length,
       (removedEntries (previousItemsOf previous) current.payload.items).length,
       (classifyItems (previousItemsOf previous) current.payload.items).2.1.length,
       (classifyItems (previousItemsOf previous) current.payload.items).2.2.1.length,
       (classifyItems (previousItemsOf previous) current.payload.items).2.2.2⟩ := by
  unfold buildReport sortChanges previousItemsOf
  cases previous <;>
    simp [List.length_insertionSort, removedEntries]

/-- C4: for every report, `counts.new + counts.increased + counts.decreased +
counts.unchanged` equals the number of items of the current snapshot, and
`counts.removed` equals the number of previous items whose name does not
occur in the current snapshot (the final conjunct ties the occurrence test
`hasName` to name membership). -/
theorem report_partition_property (current : SnapshotRecord) (previous : Option SnapshotRecord) :
    ((buildReport current previous).counts.new + (buildReport current previous).counts.increased +
        (buildReport current previous).counts.decreased +
        (buildReport current previous).counts.unchanged = current.payload.items.length)
    ∧ ((buildReport current previous).counts.removed =
        ((previousItemsOf previous).filter
          (fun it => !(hasName current.payload.items it.name))).length)
    ∧ ∀ (items : List SnapshotItem) (n : String),
        hasName items n = true ↔ ∃ it ∈ items, it.name = n := by
  refine ⟨?_, ?_, fun items n => hasName_iff items n⟩
  · rw [report_counts_eq]
    exact classifyItems_partition _ _
  · rw [report_counts_eq]
    exact removedEntries_length _ _

theorem computeReportsGo_eq_zip (l : List SnapshotRecord) (previous : Option SnapshotRecord) :
    computeReportsGo l previous =
      (l.zip (previous :: l.map some)).map
        (fun p => (p.1.jsonFileName, buildReport p.1 p.2)) := by
  induction l generalizing previous with
  | nil => rfl
  | cons r rest ih =>
    simp only [computeReportsGo, List.map_cons, List.zip_cons_cons, ih]

theorem classifyItems_nil_prev (items : List SnapshotItem) :
    classifyItems [] items =
      (items.map (fun item => createChangeEntry item 0 none), [], [], 0) := by
  induction items with
  | nil => rfl
  | cons item rest ih =>
    unfold classifyItems
    rw [show lookupByName [] item.name = none from rfl]
    dsimp only
    rw [ih]
    rfl

theorem buildReport_none_all_new (r : SnapshotRecord) :
    (buildReport r none).newItems.Perm
        (r.payload.items.map (fun item => createChangeEntry item 0 none))
      ∧ (buildReport r none).counts = ⟨r.payload.items.length, 0, 0, 0, 0⟩
      ∧ (buildReport r none).removedItems = []
      ∧ (buildReport r none).increases = []
      ∧ (buildReport r none).decreases = [] := by
  have hc := classifyItems_nil_prev r.payload.items
  unfold buildReport sortChanges
  dsimp only
  rw [hc]
  refine ⟨List.perm_insertionSort _ _, ?_, rfl, rfl, rfl⟩
  simp [removedEntries, List.length_insertionSort]

/-- C3: reports are computed by sorting the run's records globally by the
pair (snapshotDate, uploadedAt) of ISO strings and diffing each record
against its immediate predecessor in that single order (the first against an
absent previous, whose report therefore classifies every item as new):
`computeReports` equals the predecessor-zip of the sorted list, the sorted
list is ordered by `recordLe` (which the second conjunct identifies with the
lexicographic date/uploadedAt order) and is a permutation of the input, and
a report against an absent previous is all-new. -/
theorem computeReports_global_chain (records : List SnapshotRecord) :
    (computeReports records =
      ((List.insertionSort recordLe records).zip
          (none :: (List.insertionSort recordLe records).map some)).map
        (fun p => (p.1.jsonFileName, buildReport p.1 p.2)))
    ∧ (List.insertionSort recordLe records).Pairwise recordLe
    ∧ (∀ a b : SnapshotRecord,
        recordLe a b ↔
          a.payload.meta.snapshotDate < b.payload.meta.snapshotDate ∨
            (a.payload.meta.snapshotDate = b.payload.meta.snapshotDate ∧
              a.payload.meta.uploadedAt ≤ b.payload.meta.uploadedAt))
    ∧ (List.insertionSort recordLe records).Perm records
    ∧ ∀ r : SnapshotRecord,
        (buildReport r none).newItems.Perm
            (r.payload.items.map (fun item => createChangeEntry item 0 none))
          ∧ (buildReport r none).counts = ⟨r.payload.items.length, 0, 0, 0, 0⟩
          ∧ (buildReport r none).removedItems = []
          ∧ (buildReport r none).increases = []
          ∧ (buildReport r none).decreases = [] :=
  ⟨computeReportsGo_eq_zip _ none,
   List.sorted_insertionSort recordLe records,
   recordLe_iff,
   List.perm_insertionSort recordLe records,
   buildReport_none_all_new⟩

/-- C8: `sortChanges` emits `newItems` by quantity descending, `removedItems`
by previous quantity descending, `increases` by delta descending and
`decreases` by absolute delta descending, each a permutation of its input;
the `increases` sort is stable (an equal-delta pair keeps its input order);
and the deltas `[1, 5, 5, 2]` come out as `[5, 5, 2, 1]` with the two
5-entries in their original relative order. -/
theorem sortChanges_ordering (n r i d : List ChangeEntry) :
    ((sortChanges n r i d).1.Perm n ∧
      (sortChanges n r i d).1.Pairwise (fun a b => b.quantity ≤ a.quantity))
    ∧ ((sortChanges n r i d).2.1.Perm r ∧
      (sortChanges n r i d).2.1.Pairwise (fun a b => b.previousQuantity ≤ a.previousQuantity))
    ∧ ((sortChanges n r i d).2.2.1.Perm i ∧
      (sortChanges n r i d).2.2.1.Pairwise (fun a b => b.delta ≤ a.delta))
    ∧ ((sortChanges n r i d).2.2.2.Perm d ∧
      (sortChanges n r i d).2.2.2.Pairwise (fun a b => |b.delta| ≤ |a.delta|))
    ∧ (∀ a b : ChangeEntry, List.Sublist [a, b] i → a.delta = b.delta →
        List.Sublist [a, b] ((sortChanges n r i d).2.2.1))
    ∧ (sortChanges [] []
          [⟨"w","u",0,0,1⟩, ⟨"x","u",0,0,5⟩, ⟨"y","u",0,0,5⟩, ⟨"z","u",0,0,2⟩] []).2.2.1
        = [⟨"x","u",0,0,5⟩, ⟨"y","u",0,0,5⟩, ⟨"z","u",0,0,2⟩, ⟨"w","u",0,0,1⟩] := by
  refine ⟨⟨List.perm_insertionSort _ _, List.sorted_insertionSort newLe n⟩,
    ⟨List.perm_insertionSort _ _, List.sorted_insertionSort remLe r⟩,
    ⟨List.perm_insertionSort _ _, List.sorted_insertionSort incLe i⟩,
    ⟨(List.reverse_perm _).trans (List.perm_insertionSort _ _), ?_⟩,
    ?_, by decide⟩
  · exact (List.pairwise_reverse).mpr (List.sorted_insertionSort decAbsLe d)
  · intro a b hsub heq
    exact List.pair_sublist_insertionSort (le_of_eq heq.symm) hsub

/-- Witness for `sortChanges_ordering`: the stability conjunct at a concrete
equal-delta pair. -/
theorem sortChanges_ordering_witness :
    List.Sublist [⟨"a","u",0,0,(7:ℚ)⟩, ⟨"b","u",0,0,7⟩]
      ((sortChanges [] [] [⟨"a","u",0,0,(7:ℚ)⟩, ⟨"b","u",0,0,7⟩] []).2.2.1) :=
  (sortChanges_ordering [] [] [⟨"a","u",0,0,(7:ℚ)⟩, ⟨"b","u",0,0,7⟩] []).2.2.2.2.1 _ _
    (List.Sublist.refl _) rfl

/-- C10: in the row loop, a row with a valid fresh name whose quantity cell
is missing or trims to the empty string is accepted with quantity `0`; a row
whose quantity cell is present and non-empty is skipped exactly when the
comma-stripped cell does not convert to a finite number, and otherwise
accepted with the converted quantity. -/
theorem ingest_missing_quantity_accepted
    (row : CsvRow) (rest : List CsvRow) (seen : List String) (name : String)
    (hname : row.Name.map jsTrim = some name) (hne : name ≠ "") (hnew : name ∉ seen) :
    ((row.Quantity = none ∨ (∃ s, row.Quantity = some s ∧ jsTrim s = "")) →
      ingestGo (row :: rest) seen =
        ⟨name, (row.Unit.map jsTrim).getD "", 0⟩ :: ingestGo rest (name :: seen))
    ∧ (∀ s, row.Quantity = some s → jsTrim s ≠ "" →
        ((jsFiniteNumber (stripCommas (jsTrim s)) = none →
            ingestGo (row :: rest) seen = ingestGo rest seen)
          ∧ ∀ q, jsFiniteNumber (stripCommas (jsTrim s)) = some q →
              ingestGo (row :: rest) seen =
                ⟨name, (row.Unit.map jsTrim).getD "", q⟩ :: ingestGo rest (name :: seen))) := by
  constructor
  · intro hq
    have hpq : parseQuantity (row.Quantity.map jsTrim) = some 0 := by
      rcases hq with h | ⟨s, hs, hts⟩
      · rw [h]
        rfl
      · rw [hs]
        simp only [Option.map_some']
        rw [hts]
        rfl
    simp only [ingestGo, hname, hpq]
    rw [if_neg hne, if_neg hnew]
  · intro s hs hts
    constructor
    · intro hn
      have hpq : parseQuantity (row.Quantity.map jsTrim) = none := by
        rw [hs]
        simp only [Option.map_some']
        unfold parseQuantity
        dsimp only
        rw [if_neg hts, hn]
      simp only [ingestGo, hname, hpq]
      rw [if_neg hne, if_neg hnew]
    · intro q hq
      have hpq : parseQuantity (row.Quantity.map jsTrim) = some q := by
        rw [hs]
        simp only [Option.map_some']
        unfold parseQuantity
        dsimp only
        rw [if_neg hts, hq]
      simp only [ingestGo, hname, hpq]
      rw [if_neg hne, if_neg hnew]

/-- Witness for `ingest_missing_quantity_accepted`: a missing quantity cell
is accepted as `0`; a non-numeric quantity cell is skipped. -/
theorem ingest_missing_quantity_accepted_witness :
    (ingestGo [⟨some "A", some "kg", none⟩] [] = [⟨"A", "kg", 0⟩])
    ∧ (ingestGo [⟨some "B", some "kg", some "x2"⟩] [] = []) := by
  constructor
  · have h :=
      (ingest_missing_quantity_accepted ⟨some "A", some "kg", none⟩ [] [] "A"
        (by decide) (by decide) (by decide)).1 (Or.inl rfl)
    exact h.trans (by decide)
  · have h :=
      ((ingest_missing_quantity_accepted ⟨some "B", some "kg", some "x2"⟩ [] [] "B"
        (by decide) (by decide) (by decide)).2 "x2" rfl (by decide)).1 (by decide)
    exact h

theorem parseQuantity_sample :
    parseQuantity (Option.map jsTrim (some "13.9199999")) =
      some ((139199999 : ℚ) / 10000000) := by
  rw [show Option.map jsTrim (some "13.9199999") = some "13.9199999" from by decide]
  unfold parseQuantity
  dsimp only
  rw [if_neg (show ¬ ("13.9199999" : String) = "" from by decide)]
  unfold jsFiniteNumber
  rw [show jsFiniteNumberRep (stripCommas "13.9199999") = some (139199999, 7) from by decide]
  simp only [Option.map_some']
  norm_num

theorem ingestRows_sample :
    ingestRows sampleRoundingFile.rows = [⟨"Item", "kg", (139199999 : ℚ) / 10000000⟩] := by
  show ingestGo [⟨some "Item", some "kg", some "13.9199999"⟩] [] = _
  simp only [ingestGo]
  rw [show Option.map jsTrim (some "Item") = some "Item" from by decide]
  dsimp only
  rw [if_neg (show ¬ ("Item" : String) = "" from by decide)]
  rw [if_neg (show ¬ ("Item" : String) ∈ ([] : List String) from by decide)]
  rw [parseQuantity_sample]
  dsimp only
  rw [show (Option.map jsTrim (some "kg")).getD "" = "kg" from by decide]

theorem processCsv_sample :
    processCsv sampleRoundingFile [] =
      Except.ok
        (⟨⟨⟨"2025-09-30", "2025-09-30T12:00:00.000Z", "stock-items_09_30_2025.csv"⟩,
           [⟨"Item", "kg", (139199999 : ℚ) / 10000000⟩]⟩,
          "2025-09-30_20250930T120000Z.json",
          ⟨"2025-09-30", "2025-09-30T12:00:00.000Z", "stock-items_09_30_2025.csv",
           "data/snapshots/2025-09-30_20250930T120000Z.json", false, 1, 1392 / 100⟩⟩,
         []) := by
  unfold processCsv
  rw [show deriveSnapshotDate sampleRoundingFile.fileName = some "2025-09-30" from by decide]
  dsimp only
  rw [ingestRows_sample]
  rw [show sortItemsByName [(⟨"Item", "kg", (139199999 : ℚ) / 10000000⟩ : SnapshotItem)] =
    [⟨"Item", "kg", (139199999 : ℚ) / 10000000⟩] from rfl]
  dsimp only [takeExistingSnapshot, mapGet, List.find?, hashItems, calculateTotals,
    Option.map_none', sampleRoundingFile]
  rw [show generateSnapshotFileName "2025-09-30" "2025-09-30T12:00:00.000Z" =
    "2025-09-30_20250930T120000Z.json" from by decide]
  rw [show List.sum (List.map (fun i => i.quantity)
      [(⟨"Item", "kg", (139199999 : ℚ) / 10000000⟩ : SnapshotItem)]) =
    (139199999 : ℚ) / 10000000 from by simp]
  rw [show roundQuantity ((139199999 : ℚ) / 10000000) = 1392 / 100 from by
    norm_num [roundQuantity, round_eq]]
  rfl

theorem roundFixed_createChangeEntry_none (item : SnapshotItem) (pq : ℚ) :
    roundFixed (createChangeEntry item pq none) := by
  unfold roundFixed createChangeEntry
  dsimp only [Option.getD]
  exact ⟨(roundQuantity_idem pq).symm, (roundQuantity_idem item.quantity).symm,
    (roundQuantity_idem _).symm⟩

theorem roundFixed_createChangeEntry_some (item : SnapshotItem) (pq v : ℚ) :
    roundFixed (createChangeEntry item pq (some (roundQuantity v))) := by
  unfold roundFixed createChangeEntry
  dsimp only [Option.getD]
  exact ⟨(roundQuantity_idem pq).symm, (roundQuantity_idem item.quantity).symm,
    (roundQuantity_idem _).symm⟩

theorem classifyItems_roundFixed (prev items : List SnapshotItem) :
    (∀ e ∈ (classifyItems prev items).1, roundFixed e) ∧
      (∀ e ∈ (classifyItems prev items).2.1, roundFixed e) ∧
      (∀ e ∈ (classifyItems prev items).2.2.1, roundFixed e) := by
  induction items with
  | nil =>
    refine ⟨?_, ?_, ?_⟩ <;> intro e he <;> simp [classifyItems] at he
  | cons item rest ih =>
    unfold classifyItems
    cases h : lookupByName prev item.name with
    | none =>
      dsimp only
      refine ⟨?_, ih.2.1, ih.2.2⟩
      intro e he
      rcases List.mem_cons.1 he with rfl | he
      · exact roundFixed_createChangeEntry_none _ _
      · exact ih.1 e he
    | some prior =>
      dsimp only
      split_ifs with h1 h2
      · refine ⟨ih.1, ?_, ih.2.2⟩
        intro e he
        rcases List.mem_cons.1 he with rfl | he
        · exact roundFixed_createChangeEntry_some _ _ _
        · exact ih.2.1 e he
      · refine ⟨ih.1, ih.2.1, ?_⟩
        intro e he
        rcases List.mem_cons.1 he with rfl | he
        · exact roundFixed_createChangeEntry_some _ _ _
        · exact ih.2.2 e he
      · exact ih

theorem removedEntries_roundFixed (prev cur : List SnapshotItem) :
    ∀ e ∈ removedEntries prev cur, roundFixed e := by
  intro e he
  unfold removedEntries at he
  rcases List.mem_map.1 he with ⟨it, _, rfl⟩
  exact ⟨(roundQuantity_idem _).symm, roundQuantity_zero.symm, (roundQuantity_idem _).symm⟩

theorem mem_sortChanges_roundFixed (n r i d : List ChangeEntry)
    (hn : ∀ e ∈ n, roundFixed e) (hr : ∀ e ∈ r, roundFixed e)
    (hi : ∀ e ∈ i, roundFixed e) (hd : ∀ e ∈ d, roundFixed e) :
    ∀ e ∈ (sortChanges n r i d).1 ++ (sortChanges n r i d).2.1 ++
        (sortChanges n r i d).2.2.1 ++ (sortChanges n r i d).2.2.2, roundFixed e := by
  intro e he
  dsimp only [sortChanges] at he
  rcases List.mem_append.1 he with he | hed
  · rcases List.mem_append.1 he with he | hei
    · rcases List.mem_append.1 he with hen | her
      · exact hn e ((List.mem_insertionSort newLe).1 hen)
      · exact hr e ((List.mem_insertionSort remLe).1 her)
    · exact hi e ((List.mem_insertionSort incLe).1 hei)
  · exact hd e ((List.mem_insertionSort decAbsLe).1 (List.mem_reverse.1 hed))

/-- C1 (as amended): quantities derived from ingested rows — ChangeEntry
quantities, previous quantities and deltas, the report's `deltaQuantity`, and
the persisted `totalQuantity` — are rounded to exactly 3 decimal digits; the
quantity stored in the snapshot's item list, however, is the raw parsed
value: the input `13.9199999` is stored as `13.9199999` in the item list
while appearing as `13.92` in the totals and in the report's change
entries. -/
theorem quantity_rounding_amended :
    (∀ (current : SnapshotRecord) (previous : Option SnapshotRecord),
      (∀ e ∈ (buildReport current previous).newItems ++
            (buildReport current previous).removedItems ++
            (buildReport current previous).increases ++
            (buildReport current previous).decreases,
        roundFixed e)
      ∧ (buildReport current previous).totals.deltaQuantity =
          roundQuantity ((buildReport current previous).totals.deltaQuantity))
    ∧ (∀ (file : FileInput) (ex rest : ExistingSnapshots) (rec : SnapshotRecord),
        processCsv file ex = Except.ok (rec, rest) →
          rec.indexEntry.totalQuantity =
            roundQuantity ((rec.payload.items.map (fun i => i.quantity)).sum))
    ∧ (processCsv sampleRoundingFile []).toOption.map
          (fun p => p.1.payload.items.map (fun i => i.quantity)) =
        some [(139199999 : ℚ) / 10000000]
    ∧ (processCsv sampleRoundingFile []).toOption.map
          (fun p => p.1.indexEntry.totalQuantity) =
        some (1392 / 100)
    ∧ (processCsv sampleRoundingFile []).toOption.map
          (fun p => (buildReport p.1 none).newItems) =
        some [⟨"Item", "kg", 0, 1392 / 100, 1392 / 100⟩] := by
  refine ⟨?_, ?_, ?_, ?_, ?_⟩
  · intro current previous
    constructor
    · intro e he
      cases previous with
      | none =>
        unfold buildReport at he
        dsimp only at he
        exact mem_sortChanges_roundFixed _ _ _ _
          (classifyItems_roundFixed [] current.payload.items).1
          (removedEntries_roundFixed [] current.payload.items)
          (classifyItems_roundFixed [] current.payload.items).2.1
          (classifyItems_roundFixed [] current.payload.items).2.2 e he
      | some p =>
        unfold buildReport at he
        dsimp only at he
        exact mem_sortChanges_roundFixed _ _ _ _
          (classifyItems_roundFixed p.payload.items current.payload.items).1
          (removedEntries_roundFixed p.payload.items current.payload.items)
          (classifyItems_roundFixed p.payload.items current.payload.items).2.1
          (classifyItems_roundFixed p.payload.items current.payload.items).2.2 e he
    · unfold buildReport
      dsimp only
      exact (roundQuantity_idem _).symm
  · intro file ex rest rec h
    unfold processCsv at h
    cases hd : deriveSnapshotDate file.fileName with
    | none =>
      rw [hd] at h
      exact absurd h (by simp)
    | some d =>
      rw [hd] at h
      dsimp only at h
      rw [Except.ok.injEq, Prod.mk.injEq] at h
      obtain ⟨h1, _⟩ := h
      subst h1
      rfl
  · rw [processCsv_sample]
    rfl
  · rw [processCsv_sample]
    rfl
  · rw [processCsv_sample]
    show some ((buildReport
        ⟨⟨⟨"2025-09-30", "2025-09-30T12:00:00.000Z", "stock-items_09_30_2025.csv"⟩,
           [⟨"Item", "kg", (139199999 : ℚ) / 10000000⟩]⟩,
          "2025-09-30_20250930T120000Z.json",
          ⟨"2025-09-30", "2025-09-30T12:00:00.000Z", "stock-items_09_30_2025.csv",
           "data/snapshots/2025-09-30_20250930T120000Z.json", false, 1,
           1392 / 100⟩⟩ none).newItems) =
      some [⟨"Item", "kg", 0, 1392 / 100, 1392 / 100⟩]
    refine congrArg some ?_
    unfold buildReport
    dsimp only
    rw [classifyItems_nil_prev]
    dsimp only [sortChanges, List.map]
    simp only [List.insertionSort, List.orderedInsert]
    unfold createChangeEntry
    dsimp only [Option.getD]
    rw [show ((139199999 : ℚ) / 10000000 - 0) = (139199999 : ℚ) / 10000000 from by norm_num]
    rw [show roundQuantity ((139199999 : ℚ) / 10000000) = 1392 / 100 from by
      norm_num [roundQuantity, round_eq]]
    rw [roundQuantity_zero]

/-- C1 counterexample: the quantity stored in the persisted snapshot's item
list for the input `13.9199999` is the raw `13.9199999`, which is not the
3-decimal rounding `13.92` the claim asserts. -/
theorem quantity_rounding_counterexample :
    (processCsv sampleRoundingFile []).toOption.map
        (fun p => p.1.payload.items.map (fun i => i.quantity)) =
      some [(139199999 : ℚ) / 10000000]
    ∧ roundQuantity ((139199999 : ℚ) / 10000000) = 1392 / 100
    ∧ ((139199999 : ℚ) / 10000000) ≠ (1392 / 100 : ℚ) := by
  refine ⟨?_, by norm_num [roundQuantity, round_eq], by norm_num⟩
  rw [processCsv_sample]
  rfl

/-- Witness for `quantity_rounding_amended`: the persisted total of the
sample file is the rounded item sum. -/
theorem quantity_rounding_amended_witness :
    ((1392 : ℚ) / 100) =
      roundQuantity ((([⟨"Item", "kg", (139199999 : ℚ) / 10000000⟩] :
          List SnapshotItem).map (fun i => i.quantity)).sum) :=
  quantity_rounding_amended.2.1 sampleRoundingFile [] []
    ⟨⟨⟨"2025-09-30", "2025-09-30T12:00:00.000Z", "stock-items_09_30_2025.csv"⟩,
      [⟨"Item", "kg", (139199999 : ℚ) / 10000000⟩]⟩,
     "2025-09-30_20250930T120000Z.json",
     ⟨"2025-09-30", "2025-09-30T12:00:00.000Z", "stock-items_09_30_2025.csv",
      "data/snapshots/2025-09-30_20250930T120000Z.json", false, 1, 1392 / 100⟩⟩
    processCsv_sample

/-- C9 (as amended): on a current item list that is sorted by name — as every
list the batch pipeline passes to its diff is — the interactive preview's
`buildReport` (library) and the batch pipeline's `buildReport` (script)
produce identical reports, both against a previous item list and against an
absent previous. -/
theorem lib_report_refines_script (meta pmeta : SnapshotMeta) (items pItems : List SnapshotItem)
    (fname pfname : String) (hsorted : List.Sorted nameLe items) :
    (libBuildReport ⟨meta, items, some pItems, none⟩ =
      buildReport (mkPipelineRecord meta items fname)
        (some (mkPipelineRecord pmeta pItems pfname)))
    ∧ (libBuildReport ⟨meta, items, none, none⟩ =
        buildReport (mkPipelineRecord meta items fname) none) := by
  have hs : sortItemsByName items = items := hsorted.insertionSort_eq
  constructor
  · unfold libBuildReport buildReport mkPipelineRecord
    dsimp only [Option.getD]
    rw [hs]
  · unfold libBuildReport buildReport mkPipelineRecord
    dsimp only [Option.getD]
    rw [hs]
    rw [show (calculateTotals ([] : List SnapshotItem)).2 = 0 from roundQuantity_zero]
    rfl

/-- C9 counterexample: on a current item list that is **not** sorted by name
the two `buildReport`s disagree — the library sorts the items first, the
script does not — so the claim does not hold for every item list. -/
theorem lib_vs_script_counterexample :
    libBuildReport
        ⟨⟨"2025-09-30", "T", "src"⟩, [⟨"b", "u", 5⟩, ⟨"a", "u", 5⟩], none, none⟩ ≠
      buildReport
        (mkPipelineRecord ⟨"2025-09-30", "T", "src"⟩ [⟨"b", "u", 5⟩, ⟨"a", "u", 5⟩] "f.json")
        none := by
  have h5 : roundQuantity (5 : ℚ) = 5 := by norm_num [roundQuantity, round_eq]
  have hA : createChangeEntry ⟨"a", "u", (5 : ℚ)⟩ 0 none = ⟨"a", "u", 0, 5, 5⟩ := by
    unfold createChangeEntry
    dsimp only [Option.getD]
    rw [roundQuantity_zero, show ((5 : ℚ) - 0) = 5 from by norm_num, h5]
  have hB : createChangeEntry ⟨"b", "u", (5 : ℚ)⟩ 0 none = ⟨"b", "u", 0, 5, 5⟩ := by
    unfold createChangeEntry
    dsimp only [Option.getD]
    rw [roundQuantity_zero, show ((5 : ℚ) - 0) = 5 from by norm_num, h5]
  have hlib : (libBuildReport
      ⟨⟨"2025-09-30", "T", "src"⟩, [⟨"b", "u", 5⟩, ⟨"a", "u", 5⟩], none, none⟩).newItems =
      [⟨"a", "u", 0, 5, 5⟩, ⟨"b", "u", 0, 5, 5⟩] := by
    unfold libBuildReport
    dsimp only [Option.getD]
    rw [show sortItemsByName [⟨"b", "u", 5⟩, ⟨"a", "u", 5⟩] =
      [(⟨"a", "u", 5⟩ : SnapshotItem), ⟨"b", "u", 5⟩] from by
        unfold sortItemsByName
        simp only [List.insertionSort, List.orderedInsert]
        rw [if_neg (show ¬ nameLe ⟨"b", "u", 5⟩ ⟨"a", "u", 5⟩ from by
          unfold nameLe
          rw [String.le_iff_toList_le]
          decide)]]
    rw [classifyItems_nil_prev]
    dsimp only [List.map]
    rw [hA, hB]
    decide
  have hscript : (buildReport
      (mkPipelineRecord ⟨"2025-09-30", "T", "src"⟩ [⟨"b", "u", 5⟩, ⟨"a", "u", 5⟩] "f.json")
      none).newItems = [⟨"b", "u", 0, 5, 5⟩, ⟨"a", "u", 0, 5, 5⟩] := by
    unfold buildReport mkPipelineRecord
    dsimp only
    rw [classifyItems_nil_prev]
    dsimp only [List.map]
    rw [hA, hB]
    decide
  intro h
  rw [h] at hlib
  rw [hscript] at hlib
  exact absurd hlib (by decide)

/-- Witness for `lib_report_refines_script` at a concrete sorted item
list. -/
theorem lib_report_refines_script_witness :
    libBuildReport
        ⟨⟨"2025-09-30", "T", "src"⟩, [⟨"a", "u", 1⟩], some [], none⟩ =
      buildReport
        (mkPipelineRecord ⟨"2025-09-30", "T", "src"⟩ [⟨"a", "u", 1⟩] "f.json")
        (some (mkPipelineRecord ⟨"2025-09-29", "S", "src"⟩ [] "g.json")) :=
  (lib_report_refines_script ⟨"2025-09-30", "T", "src"⟩ ⟨"2025-09-29", "S", "src"⟩
    [⟨"a", "u", 1⟩] [] "f.json" "g.json" (by decide)).1

theorem processCsv_ok_of_derive (file : FileInput) (ex : ExistingSnapshots)
    (h : (deriveSnapshotDate file.fileName).isSome) :
    ∃ p, processCsv file ex = Except.ok p := by
  unfold processCsv
  cases hd : deriveSnapshotDate file.fileName with
  | none => rw [hd] at h; exact absurd h (by simp)
  | some d => exact ⟨_, rfl⟩

theorem processAll_ok_of_all_derive (fs : List FileInput) :
    ∀ (ex : ExistingSnapshots) (recs : List SnapshotRecord) (effs : List Effect),
      (∀ f ∈ fs, (deriveSnapshotDate f.fileName).isSome) →
      (processAll fs ex recs effs).2.1 = none := by
  induction fs with
  | nil => intro ex recs effs _; rfl
  | cons f rest ih =>
    intro ex recs effs h
    unfold processAll
    obtain ⟨p, hp⟩ := processCsv_ok_of_derive f ex (h f (List.mem_cons_self f rest))
    rw [hp]
    exact ih p.2 _ _ (fun g hg => h g (List.mem_cons_of_mem f hg))

theorem processAll_effects (fs : List FileInput) :
    ∀ (ex : ExistingSnapshots) (recs : List SnapshotRecord) (effs : List Effect),
      ∀ e ∈ (processAll fs ex recs effs).1,
        e ∈ effs ∨ ∃ n, e = Effect.writeSnapshot n := by
  induction fs with
  | nil => intro ex recs effs e he; exact Or.inl he
  | cons f rest ih =>
    intro ex recs effs e
    unfold processAll
    cases hp : processCsv f ex with
    | error err => exact fun he => Or.inl he
    | ok p =>
      intro he
      rcases ih p.2 (recs ++ [p.1]) (effs ++ [Effect.writeSnapshot p.1.jsonFileName]) e he with
        hmem | hw
      · rcases List.mem_append.1 hmem with h1 | h2
        · exact Or.inl h1
        · exact Or.inr ⟨_, List.mem_singleton.1 h2⟩
      · exact Or.inr hw

theorem processAll_error_of_bad (fs : List FileInput) :
    ∀ (ex : ExistingSnapshots) (recs : List SnapshotRecord) (effs : List Effect),
      (∃ f ∈ fs, deriveSnapshotDate f.fileName = none) →
      (processAll fs ex recs effs).2.1.isSome := by
  induction fs with
  | nil =>
    intro ex recs effs h
    rcases h with ⟨f, hf, _⟩
    exact absurd hf (List.not_mem_nil f)
  | cons f rest ih =>
    intro ex recs effs h
    unfold processAll
    cases hp : processCsv f ex with
    | error err => rfl
    | ok p =>
      rcases h with ⟨g, hg, hbad⟩
      rcases List.mem_cons.1 hg with rfl | hgrest
      · exfalso
        unfold processCsv at hp
        rw [hbad] at hp
        exact absurd hp (by simp)
      · exact ih p.2 _ _ ⟨g, hgrest, hbad⟩

/-- C5 (as amended): a file whose ingestion accepts zero rows does **not**
fail — `processCsv` succeeds with an empty item list and zero totals, and a
run whose CSV files all match the date pattern finishes without a fatal
error even when files ingest zero rows. -/
theorem empty_ingestion_succeeds :
    (∀ (file : FileInput) (ex : ExistingSnapshots) (d : String),
      deriveSnapshotDate file.fileName = some d →
      ingestRows file.rows = [] →
      ∃ rec ex', processCsv file ex = Except.ok (rec, ex')
        ∧ rec.payload.items = [] ∧ rec.indexEntry.totalItems = 0
        ∧ rec.indexEntry.totalQuantity = 0)
    ∧ (∀ (files : List FileInput) (ex : ExistingSnapshots),
        (∀ f ∈ listCsvFiles files, (deriveSnapshotDate f.fileName).isSome) →
        (runMain files ex).2 = none) := by
  constructor
  · intro file ex d hd hrows
    unfold processCsv
    rw [hd]
    dsimp only
    rw [hrows]
    rw [show sortItemsByName [] = [] from rfl]
    exact ⟨_, _, rfl, rfl, rfl, roundQuantity_zero⟩
  · intro files ex h
    unfold runMain
    dsimp only
    by_cases hcsv : listCsvFiles files = []
    · rw [if_pos hcsv]
    · rw [if_neg hcsv]
      have hnone := processAll_ok_of_all_derive (listCsvFiles files) ex [] [Effect.clearDerived] h
      rw [hnone]

/-- C5 counterexample: a CSV file with zero accepted rows is processed
successfully (no `ParseError` exists in the pipeline) and the run completes
without aborting. -/
theorem empty_ingestion_counterexample :
    (processCsv ⟨"stock-items_09_30_2025.csv", [], "T"⟩ []).isOk = true
    ∧ (runMain [⟨"stock-items_09_30_2025.csv", [], "T"⟩] []).2 = none := by
  constructor
  · decide
  · decide

/-- Witness for `empty_ingestion_succeeds`: the empty-rows file for
2025-09-30. -/
theorem empty_ingestion_succeeds_witness :
    ∃ rec ex', processCsv ⟨"stock-items_09_30_2025.csv", [], "T"⟩ [] = Except.ok (rec, ex')
      ∧ rec.payload.items = [] ∧ rec.indexEntry.totalItems = 0
      ∧ rec.indexEntry.totalQuantity = 0 :=
  empty_ingestion_succeeds.1 ⟨"stock-items_09_30_2025.csv", [], "T"⟩ [] "2025-09-30"
    (by decide) rfl

/-- C6 (as amended): if any CSV file's name fails the date pattern the run
aborts with a fatal error before the index, the reports or the latest
artifacts are written — the only effects that can precede the abort are the
initial clearing of the derived directories and the snapshot writes of files
processed earlier in the loop. -/
theorem run_abort_on_bad_filename (files : List FileInput) (ex : ExistingSnapshots)
    (h : ∃ f ∈ listCsvFiles files, deriveSnapshotDate f.fileName = none) :
    (∃ e, (runMain files ex).2 = some e)
    ∧ ∀ eff ∈ (runMain files ex).1,
        eff = Effect.clearDerived ∨ ∃ n, eff = Effect.writeSnapshot n := by
  have hne : listCsvFiles files ≠ [] := by
    rcases h with ⟨f, hf, _⟩
    intro hempty
    rw [hempty] at hf
    exact absurd hf (List.not_mem_nil f)
  unfold runMain
  dsimp only
  rw [if_neg hne]
  have herr := processAll_error_of_bad (listCsvFiles files) ex [] [Effect.clearDerived] h
  have heff := processAll_effects (listCsvFiles files) ex [] [Effect.clearDerived]
  cases hres : (processAll (listCsvFiles files) ex [] [Effect.clearDerived]).2.1 with
  | none =>
    rw [hres] at herr
    exact absurd herr (by simp)
  | some e =>
    dsimp only
    refine ⟨⟨e, rfl⟩, ?_⟩
    intro eff heffmem
    rcases heff eff heffmem with h1 | h2
    · exact Or.inl (List.mem_singleton.1 h1)
    · exact Or.inr h2

/-- C6 counterexample: with a well-named file sorting before `zz.csv`, the
run does fail, but only **after** the derived directories were cleared and
the first file's snapshot was written — refuting "before any write to
storage". -/
theorem run_abort_counterexample :
    (runMain [⟨"stock-items_09_29_2025.csv", [], "T"⟩, ⟨"zz.csv", [], "T"⟩] []).2 =
      some (RunError.filenamePattern "zz.csv")
    ∧ Effect.clearDerived ∈
        (runMain [⟨"stock-items_09_29_2025.csv", [], "T"⟩, ⟨"zz.csv", [], "T"⟩] []).1
    ∧ Effect.writeSnapshot "2025-09-29_T.json" ∈
        (runMain [⟨"stock-items_09_29_2025.csv", [], "T"⟩, ⟨"zz.csv", [], "T"⟩] []).1 := by
  have hlist : listCsvFiles [⟨"stock-items_09_29_2025.csv", [], "T"⟩, ⟨"zz.csv", [], "T"⟩] =
      [⟨"stock-items_09_29_2025.csv", [], "T"⟩, ⟨"zz.csv", [], "T"⟩] := by
    unfold listCsvFiles
    rw [show List.filter (fun f => endsWithCsv f.fileName)
        [(⟨"stock-items_09_29_2025.csv", [], "T"⟩ : FileInput), ⟨"zz.csv", [], "T"⟩] =
      [⟨"stock-items_09_29_2025.csv", [], "T"⟩, ⟨"zz.csv", [], "T"⟩] from by decide]
    simp only [List.insertionSort, List.orderedInsert]
    rw [if_pos (show fileLe ⟨"stock-items_09_29_2025.csv", [], "T"⟩ ⟨"zz.csv", [], "T"⟩ from by
      unfold fileLe
      rw [String.le_iff_toList_le]
      decide)]
  unfold runMain
  dsimp only
  rw [hlist]
  rw [if_neg (show ¬ ([(⟨"stock-items_09_29_2025.csv", [], "T"⟩ : FileInput),
    ⟨"zz.csv", [], "T"⟩] = []) from by decide)]
  refine ⟨?_, ?_, ?_⟩ <;> decide

/-- Witness for `run_abort_on_bad_filename`: a directory holding only the
ill-named `zz.csv`. -/
theorem run_abort_on_bad_filename_witness :
    (∃ e, (runMain [⟨"zz.csv", [], "T"⟩] []).2 = some e)
    ∧ ∀ eff ∈ (runMain [⟨"zz.csv", [], "T"⟩] []).1,
        eff = Effect.clearDerived ∨ ∃ n, eff = Effect.writeSnapshot n :=
  run_abort_on_bad_filename [⟨"zz.csv", [], "T"⟩] []
    ⟨⟨"zz.csv", [], "T"⟩, by decide, rfl⟩

theorem takeFromBucket_no_match (hash : List SnapshotItem)
    (bucket : List ExistingSnapshotRecord) (h : ∀ e ∈ bucket, e.hash ≠ hash) :
    takeFromBucket hash bucket = (none, bucket) := by
  induction bucket with
  | nil => rfl
  | cons e rest ih =>
    unfold takeFromBucket
    rw [if_neg (h e (List.mem_cons_self e rest))]
    rw [ih (fun x hx => h x (List.mem_cons_of_mem e hx))]

theorem takeFromBucket_some (hash : List SnapshotItem) (bucket : List ExistingSnapshotRecord)
    (r : ExistingSnapshotRecord) (h : (takeFromBucket hash bucket).1 = some r) :
    r ∈ bucket ∧ r.hash = hash ∧
      ((takeFromBucket hash bucket).2.countP (fun e => e.hash == hash)) + 1 =
        bucket.countP (fun e => e.hash == hash) := by
  induction bucket with
  | nil => exact absurd h (by simp [takeFromBucket])
  | cons e rest ih =>
    unfold takeFromBucket at h ⊢
    by_cases he : e.hash = hash
    · rw [if_pos he] at h ⊢
      dsimp only at h ⊢
      obtain rfl : e = r := by injection h
      refine ⟨List.mem_cons_self e rest, he, ?_⟩
      rw [List.countP_cons]
      simp [he]
    · rw [if_neg he] at h ⊢
      dsimp only at h ⊢
      obtain ⟨hmem, hhash, hcount⟩ := ih h
      refine ⟨List.mem_cons_of_mem e hmem, hhash, ?_⟩
      rw [List.countP_cons, List.countP_cons]
      have : (e.hash == hash) = false := beq_eq_false_iff_ne.mpr he
      rw [this]
      omega

theorem mapGet_mapDelete (m : ExistingSnapshots) (k : String) :
    mapGet (mapDelete m k) k = none := by
  unfold mapGet mapDelete
  rw [List.find?_eq_none.mpr]
  · rfl
  · intro p hp
    have := (List.mem_filter.1 hp).2
    simp only [bne_iff_ne, ne_eq] at this
    simp [this]

theorem mapGet_mapSet_self (m : ExistingSnapshots) (k : String)
    (v : List ExistingSnapshotRecord) (h : m.any (fun p => p.1 == k) = true) :
    mapGet (mapSet m k v) k = some v := by
  unfold mapSet
  rw [if_pos h]
  induction m with
  | nil => exact absurd h (by simp)
  | cons p rest ih =>
    unfold mapGet
    by_cases hp : p.1 = k
    · rw [List.map_cons, show ((if p.1 == k then (k, v) else p)) = (k, v) from by
        rw [if_pos (beq_iff_eq.mpr hp)]]
      rw [List.find?_cons_of_pos _ (by simp)]
      rfl
    · have hbeq : (p.1 == k) = false := beq_eq_false_iff_ne.mpr hp
      rw [List.map_cons, show ((if p.1 == k then (k, v) else p)) = p from by rw [if_neg (by simp [hbeq])]]
      rw [List.find?_cons_of_neg _ (by simp [hbeq])]
      have hrest : rest.any (fun p => p.1 == k) = true := by
        rcases List.any_eq_true.1 h with ⟨q, hq, hqk⟩
        rcases List.mem_cons.1 hq with rfl | hqrest
        · exact absurd hqk (by simp [hbeq])
        · exact List.any_eq_true.2 ⟨q, hqrest, hqk⟩
      exact ih hrest

theorem takeWhile_append_stop (p : Char → Bool) (l t : List Char) (c : Char)
    (hall : ∀ x ∈ l, p x = true) (hc : p c = false) :
    (l ++ c :: t).takeWhile p = l := by
  induction l with
  | nil => simp [List.takeWhile_cons, hc]
  | cons x xs ih =>
    rw [List.cons_append, List.takeWhile_cons, hall x (List.mem_cons_self x xs)]
    rw [ih (fun y hy => hall y (List.mem_cons_of_mem x hy))]
    simp

theorem basename_prefix_free (name : String) (h : ∀ c ∈ name.data, c ≠ '/') :
    basename ("data/snapshots/" ++ name) = name := by
  unfold basename
  rw [String.data_append, List.reverse_append]
  rw [show ("data/snapshots/" : String).data.reverse =
    '/' :: ("data/snapshots" : String).data.reverse from by decide]
  rw [takeWhile_append_stop _ _ _ _
    (fun x hx => bne_iff_ne.mpr (h x (List.mem_reverse.1 hx))) (by decide)]
  rw [List.reverse_reverse]

theorem processCsv_reload (fileName : String) (rows : List CsvRow) (mt' : String)
    (d u f : String) (t1 : ℕ) (t2 : ℚ)
    (hd : deriveSnapshotDate fileName = some d)
    (hslash : ∀ c ∈ f.data, c ≠ '/') :
    processCsv ⟨fileName, rows, mt'⟩
        (loadExistingSnapshots
          [(⟨d, u, fileName, "data/snapshots/" ++ f, false, t1, t2⟩,
            ⟨⟨d, u, fileName⟩, sortItemsByName (ingestRows rows)⟩)]) =
      Except.ok
        (⟨⟨⟨d, u, fileName⟩, sortItemsByName (ingestRows rows)⟩, f,
          ⟨d, u, fileName, "data/snapshots/" ++ f, false,
           (calculateTotals (sortItemsByName (ingestRows rows))).1,
           (calculateTotals (sortItemsByName (ingestRows rows))).2⟩⟩,
         []) := by
  have hsorted : List.Sorted nameLe (sortItemsByName (ingestRows rows)) :=
    List.sorted_insertionSort nameLe (ingestRows rows)
  have hidem : sortItemsByName (sortItemsByName (ingestRows rows)) =
      sortItemsByName (ingestRows rows) := hsorted.insertionSort_eq
  have hbase : basename ("data/snapshots/" ++ f) = f := basename_prefix_free f hslash
  have hload : loadExistingSnapshots
      [(⟨d, u, fileName, "data/snapshots/" ++ f, false, t1, t2⟩,
        ⟨⟨d, u, fileName⟩, sortItemsByName (ingestRows rows)⟩)] =
      [(makeExistingKey fileName d,
        [⟨makeExistingKey fileName d, sortItemsByName (ingestRows rows), ⟨d, u, fileName⟩,
          f⟩])] := by
    unfold loadExistingSnapshots
    dsimp only [List.foldl]
    unfold mapPush mapGet
    dsimp only [List.find?]
    rw [hidem, hbase]
    rfl
  have htake : takeFromBucket (hashItems (sortItemsByName (ingestRows rows)))
      [⟨makeExistingKey fileName d, sortItemsByName (ingestRows rows), ⟨d, u, fileName⟩, f⟩] =
      (some ⟨makeExistingKey fileName d, sortItemsByName (ingestRows rows), ⟨d, u, fileName⟩, f⟩,
       []) := by
    unfold takeFromBucket
    simp [hashItems]
  unfold processCsv
  dsimp only
  rw [hd]
  dsimp only
  rw [hload]
  unfold takeExistingSnapshot mapGet
  rw [List.find?_cons_of_pos _ (by simp)]
  simp only [Option.map_some']
  rw [if_neg (by simp :
    ¬ ([(⟨makeExistingKey fileName d, sortItemsByName (ingestRows rows), ⟨d, u, fileName⟩, f⟩ :
      ExistingSnapshotRecord)] = []))]
  rw [htake]
  rw [show mapDelete
      [(makeExistingKey fileName d,
        [⟨makeExistingKey fileName d, sortItemsByName (ingestRows rows), ⟨d, u, fileName⟩, f⟩])]
      (makeExistingKey fileName d) = [] from by
    unfold mapDelete
    simp]
  dsimp only
  rw [if_pos (rfl : ([] : List ExistingSnapshotRecord) = [])]

theorem processCsv_emptyRows_sample :
    processCsv ⟨"stock-items_09_30_2025.csv", [], "T"⟩ [] =
      Except.ok
        (⟨⟨⟨"2025-09-30", "T", "stock-items_09_30_2025.csv"⟩, []⟩, "2025-09-30_T.json",
          ⟨"2025-09-30", "T", "stock-items_09_30_2025.csv",
           "data/snapshots/2025-09-30_T.json", false, 0, 0⟩⟩,
         []) := by
  unfold processCsv
  rw [show deriveSnapshotDate ("stock-items_09_30_2025.csv" : String) = some "2025-09-30" from by
    decide]
  dsimp only
  rw [show (calculateTotals (sortItemsByName (ingestRows []))).2 = 0 from roundQuantity_zero]
  rfl

/-- C2: the identity resolver consumes hash matches and makes rebuilds
idempotent.  Conjuncts: (1) a bucket with no hash match leaves the lookup
unchanged and yields no reuse; (2) a successful take returns a bucket entry
with the requested hash and removes exactly one such entry, so it cannot be
matched a second time in the run; (3) on a hash match `processCsv` reuses
the prior entry's `uploadedAt` and storage filename verbatim; (4) with no
match it assigns the file's mtime and a freshly generated filename; (5) a
second rebuild over the persisted index and snapshot of a first run assigns
the same `uploadedAt` and filename even when the raw file's mtime changed. -/
theorem identity_reuse_spec :
    (∀ (m : ExistingSnapshots) (key : String) (hash : List SnapshotItem),
      (∀ e ∈ bucketOf m key, e.hash ≠ hash) → takeExistingSnapshot m key hash = (none, m))
    ∧ (∀ (m m' : ExistingSnapshots) (key : String) (hash : List SnapshotItem)
          (r : ExistingSnapshotRecord),
        takeExistingSnapshot m key hash = (some r, m') →
          r ∈ bucketOf m key ∧ r.hash = hash ∧
            (bucketOf m' key).countP (fun e => e.hash == hash) + 1 =
              (bucketOf m key).countP (fun e => e.hash == hash))
    ∧ (∀ (file : FileInput) (ex m' : ExistingSnapshots) (d : String)
          (r : ExistingSnapshotRecord),
        deriveSnapshotDate file.fileName = some d →
        takeExistingSnapshot ex (makeExistingKey file.fileName d)
            (hashItems (sortItemsByName (ingestRows file.rows))) = (some r, m') →
        ∃ rec, processCsv file ex = Except.ok (rec, m')
          ∧ rec.payload.meta.uploadedAt = r.meta.uploadedAt
          ∧ rec.jsonFileName = r.fileName)
    ∧ (∀ (file : FileInput) (ex : ExistingSnapshots) (d : String),
        deriveSnapshotDate file.fileName = some d →
        takeExistingSnapshot ex (makeExistingKey file.fileName d)
            (hashItems (sortItemsByName (ingestRows file.rows))) = (none, ex) →
        ∃ rec, processCsv file ex = Except.ok (rec, ex)
          ∧ rec.payload.meta.uploadedAt = file.mtime
          ∧ rec.jsonFileName = generateSnapshotFileName d file.mtime)
    ∧ (∀ (file : FileInput) (ex ex₂ : ExistingSnapshots) (rec : SnapshotRecord) (mt' : String),
        processCsv file ex = Except.ok (rec, ex₂) →
        (∀ c ∈ rec.jsonFileName.data, c ≠ '/') →
        ∃ rec' ex₃,
          processCsv ⟨file.fileName, file.rows, mt'⟩
              (loadExistingSnapshots [(rec.indexEntry, rec.payload)]) =
            Except.ok (rec', ex₃)
          ∧ rec'.payload.meta.uploadedAt = rec.payload.meta.uploadedAt
          ∧ rec'.jsonFileName = rec.jsonFileName) := by
  refine ⟨?_, ?_, ?_, ?_, ?_⟩
  · intro m key hash h
    unfold takeExistingSnapshot
    cases hm : mapGet m key with
    | none => rfl
    | some bucket =>
      dsimp only
      have hb : bucketOf m key = bucket := by
        unfold bucketOf
        rw [hm]
        rfl
      by_cases hbe : bucket = []
      · rw [if_pos hbe]
      · rw [if_neg hbe]
        rw [takeFromBucket_no_match hash bucket (fun e he => h e (hb ▸ he))]
  · intro m m' key hash r h
    unfold takeExistingSnapshot at h
    cases hm : mapGet m key with
    | none =>
      rw [hm] at h
      exact absurd h (by simp)
    | some bucket =>
      rw [hm] at h
      dsimp only at h
      have hb : bucketOf m key = bucket := by
        unfold bucketOf
        rw [hm]
        rfl
      by_cases hbe : bucket = []
      · rw [if_pos hbe] at h
        exact absurd h (by simp)
      · rw [if_neg hbe] at h
        cases ht : (takeFromBucket hash bucket).1 with
        | none =>
          rw [ht] at h
          exact absurd h (by simp)
        | some record =>
          rw [ht] at h
          dsimp only at h
          obtain ⟨hmem, hhash, hcount⟩ := takeFromBucket_some hash bucket record ht
          by_cases hre : (takeFromBucket hash bucket).2 = []
          · rw [if_pos hre] at h
            rw [Prod.mk.injEq] at h
            obtain ⟨hr, hm'⟩ := h
            obtain rfl : record = r := by injection hr
            refine ⟨hb ▸ hmem, hhash, ?_⟩
            rw [← hm']
            unfold bucketOf
            rw [mapGet_mapDelete, hm]
            simp only [Option.getD_some, Option.getD_none]
            rw [← hcount, hre]
          · rw [if_neg hre] at h
            rw [Prod.mk.injEq] at h
            obtain ⟨hr, hm'⟩ := h
            obtain rfl : record = r := by injection hr
            refine ⟨hb ▸ hmem, hhash, ?_⟩
            have hany : m.any (fun p => p.1 == key) = true := by
              unfold mapGet at hm
              cases hf : m.find? (fun p => p.1 == key) with
              | none =>
                rw [hf] at hm
                exact absurd hm (by simp)
              | some q =>
                have hq := List.find?_some hf
                exact List.any_eq_true.2 ⟨q, List.mem_of_find?_eq_some hf, hq⟩
            rw [← hm']
            unfold bucketOf
            rw [mapGet_mapSet_self m key _ hany, hm]
            simp only [Option.getD_some]
            exact hcount
  · intro file ex m' d r hd htake
    unfold processCsv
    rw [hd]
    dsimp only
    rw [htake]
    exact ⟨_, rfl, rfl, rfl⟩
  · intro file ex d hd htake
    unfold processCsv
    rw [hd]
    dsimp only
    rw [htake]
    exact ⟨_, rfl, rfl, rfl⟩
  · intro file ex ex₂ rec mt' h hslash
    unfold processCsv at h
    cases hd : deriveSnapshotDate file.fileName with
    | none =>
      rw [hd] at h
      exact absurd h (by simp)
    | some d =>
      rw [hd] at h
      dsimp only at h
      rw [Except.ok.injEq, Prod.mk.injEq] at h
      obtain ⟨h1, _⟩ := h
      subst h1
      exact ⟨_, _, processCsv_reload file.fileName file.rows mt' d _ _ _ _ hd hslash, rfl, rfl⟩

/-- Witness for `identity_reuse_spec`: rebuilding over the first run's output
for the empty 2025-09-30 file with a changed mtime keeps `uploadedAt = "T"`
and the filename. -/
theorem identity_reuse_spec_witness :
    ∃ rec' ex₃,
      processCsv ⟨"stock-items_09_30_2025.csv", [], "B"⟩
          (loadExistingSnapshots
            [(⟨"2025-09-30", "T", "stock-items_09_30_2025.csv",
               "data/snapshots/2025-09-30_T.json", false, 0, 0⟩,
              ⟨⟨"2025-09-30", "T", "stock-items_09_30_2025.csv"⟩, []⟩)]) =
        Except.ok (rec', ex₃)
      ∧ rec'.payload.meta.uploadedAt = "T"
      ∧ rec'.jsonFileName = "2025-09-30_T.json" :=
  identity_reuse_spec.2.2.2.2 ⟨"stock-items_09_30_2025.csv", [], "T"⟩ [] []
    ⟨⟨⟨"2025-09-30", "T", "stock-items_09_30_2025.csv"⟩, []⟩, "2025-09-30_T.json",
     ⟨"2025-09-30", "T", "stock-items_09_30_2025.csv",
      "data/snapshots/2025-09-30_T.json", false, 0, 0⟩⟩
    "B" processCsv_emptyRows_sample (by decide)

theorem recordLe_refl (r : SnapshotRecord) : recordLe r r :=
  (recordLe_iff r r).2 (Or.inr ⟨rfl, le_refl _⟩)

theorem pairwise_getLast {α : Type} {R : α → α → Prop} (l : List α) :
    ∀ (a : α), l.Pairwise R → l.getLast? = some a → ∀ x ∈ l, x = a ∨ R x a := by
  induction l with
  | nil =>
    intro a _ h
    simp at h
  | cons x t ih =>
    intro a hp hl y hy
    cases t with
    | nil =>
      simp only [List.getLast?_singleton, Option.some.injEq] at hl
      rcases List.mem_singleton.1 hy with rfl
      exact Or.inl hl
    | cons z t' =>
      rw [List.getLast?_cons_cons] at hl
      rcases List.mem_cons.1 hy with rfl | hyt
      · have ha : a ∈ z :: t' := List.mem_of_getLast?_eq_some hl
        exact Or.inr ((List.pairwise_cons.1 hp).1 a ha)
      · exact ih a (List.pairwise_cons.1 hp).2 hl y hyt

theorem mem_dedupFirstGo (l : List String) :
    ∀ (seen : List String) (x : String),
      x ∈ dedupFirstGo l seen ↔ x ∈ l ∧ x ∉ seen := by
  induction l with
  | nil => intro seen x; simp [dedupFirstGo]
  | cons d rest ih =>
    intro seen x
    unfold dedupFirstGo
    by_cases hd : d ∈ seen
    · rw [if_pos hd, ih]
      constructor
      · rintro ⟨hr, hs⟩
        exact ⟨List.mem_cons_of_mem d hr, hs⟩
      · rintro ⟨hdor, hs⟩
        rcases List.mem_cons.1 hdor with rfl | hr
        · exact absurd hd hs
        · exact ⟨hr, hs⟩
    · rw [if_neg hd]
      constructor
      · intro hx
        rcases List.mem_cons.1 hx with rfl | hx'
        · exact ⟨List.mem_cons_self x rest, hd⟩
        · obtain ⟨hr, hs⟩ := (ih (d :: seen) x).1 hx'
          exact ⟨List.mem_cons_of_mem d hr,
            fun hmem => hs (List.mem_cons_of_mem d hmem)⟩
      · rintro ⟨hdor, hs⟩
        rcases List.mem_cons.1 hdor with rfl | hr
        · exact List.mem_cons_self x _
        · by_cases hxd : x = d
          · subst hxd
            exact List.mem_cons_self x _
          · exact List.mem_cons_of_mem d ((ih (d :: seen) x).2
              ⟨hr, fun hmem => by
                rcases List.mem_cons.1 hmem with h' | h'
                · exact hxd h'
                · exact hs h'⟩)

theorem mem_dedupFirst (l : List String) (x : String) : x ∈ dedupFirst l ↔ x ∈ l := by
  unfold dedupFirst
  rw [mem_dedupFirstGo]
  simp

theorem mem_groupFor (records : List SnapshotRecord) (d : String) (i : ℕ)
    (r : SnapshotRecord) :
    (i, r) ∈ groupFor records d ↔
      (i, r) ∈ records.enum ∧ r.payload.meta.snapshotDate = d := by
  unfold groupFor
  rw [List.mem_filter]
  simp [beq_iff_eq]

theorem countP_eq_one_of_unique {α : Type} [DecidableEq α] (p : α → Bool) :
    ∀ (l : List α) (a : α), a ∈ l → p a = true → (∀ x ∈ l, p x = true → x = a) →
      l.count a ≤ 1 → l.countP p = 1 := by
  intro l
  induction l with
  | nil => intro a h; exact absurd h (List.not_mem_nil a)
  | cons x t ih =>
    intro a hmem hpa huniq hcount
    by_cases hxa : x = a
    · subst hxa
      rw [List.countP_cons, List.countP_eq_zero.2, hpa]
      · rfl
      · intro y hy hpy
        have hya := huniq y (List.mem_cons_of_mem x hy) hpy
        subst hya
        rw [List.count_cons_self] at hcount
        exact absurd hy (by
          intro hmem'
          have := List.count_pos_iff.2 hmem'
          omega)
    · have hpx : p x = false := by
        cases hpx : p x with
        | false => rfl
        | true => exact absurd (huniq x (List.mem_cons_self x t) hpx) hxa
      rw [List.countP_cons, hpx]
      have hat : a ∈ t := by
        rcases List.mem_cons.1 hmem with rfl | h
        · exact absurd rfl hxa
        · exact h
      rw [List.count_cons_of_ne (fun h => hxa h.symm)] at hcount
      exact (ih a hat hpa
        (fun y hy hpy => huniq y (List.mem_cons_of_mem x hy) hpy) hcount).trans (by omega)

theorem chosenIdx_spec (records : List SnapshotRecord) (d : String) (i : ℕ)
    (h : chosenIdx records d = some i) :
    ∃ r, (i, r) ∈ records.enum ∧ r.payload.meta.snapshotDate = d ∧
      ∀ p ∈ groupFor records d, recordLe p.2 r := by
  unfold chosenIdx at h
  cases hl : (List.insertionSort enumRecordLe (groupFor records d)).getLast? with
  | none =>
    rw [hl] at h
    exact absurd h (by simp)
  | some q =>
    rw [hl] at h
    simp only [Option.map_some', Option.some.injEq] at h
    have hqmem : q ∈ List.insertionSort enumRecordLe (groupFor records d) :=
      List.mem_of_getLast?_eq_some hl
    have hqgrp : q ∈ groupFor records d :=
      (List.perm_insertionSort enumRecordLe (groupFor records d)).subset hqmem
    have hpair := List.sorted_insertionSort enumRecordLe (groupFor records d)
    obtain ⟨hqenum, hqdate⟩ := (mem_groupFor records d q.1 q.2).1 hqgrp
    refine ⟨q.2, ?_, hqdate, ?_⟩
    · rw [← h]
      exact hqenum
    · intro p hp
      have hps : p ∈ List.insertionSort enumRecordLe (groupFor records d) :=
        (List.perm_insertionSort enumRecordLe (groupFor records d)).mem_iff.2 hp
      rcases pairwise_getLast _ q hpair hl p hps with rfl | hle
      · exact recordLe_refl _
      · exact hle

theorem chosenIdx_isSome (records : List SnapshotRecord) (d : String)
    (h : d ∈ records.map (fun r => r.payload.meta.snapshotDate)) :
    ∃ i, chosenIdx records d = some i := by
  rcases List.mem_map.1 h with ⟨r, hr, hd⟩
  obtain ⟨i, hi⟩ := List.mem_iff_get?.1 hr
  have henum : (i, r) ∈ records.enum := by
    rw [List.mem_enum_iff_getElem?]
    rw [← List.get?_eq_getElem?]
    exact hi
  have hg : (i, r) ∈ groupFor records d := (mem_groupFor records d i r).2 ⟨henum, hd⟩
  cases hlast : (List.insertionSort enumRecordLe (groupFor records d)).getLast? with
  | none =>
    rw [List.getLast?_eq_none_iff] at hlast
    have := (List.perm_insertionSort enumRecordLe (groupFor records d)).mem_iff.2 hg
    rw [hlast] at this
    exact absurd this (List.not_mem_nil _)
  | some q =>
    refine ⟨q.1, ?_⟩
    unfold chosenIdx
    rw [hlast]
    rfl

theorem enum_functional (records : List SnapshotRecord) (i : ℕ) (r r' : SnapshotRecord)
    (h : (i, r) ∈ records.enum) (h' : (i, r') ∈ records.enum) : r = r' := by
  have h1 := List.mem_enum_iff_getElem?.1 h
  have h2 := List.mem_enum_iff_getElem?.1 h'
  rw [h1] at h2
  injection h2

theorem enum_snd_mem (records : List SnapshotRecord) (j : ℕ) (rj : SnapshotRecord)
    (h : (j, rj) ∈ records.enum) : rj ∈ records := by
  have h1 := List.mem_enum_iff_getElem?.1 h
  rw [← List.get?_eq_getElem?] at h1
  exact List.get?_mem h1

/-- C7: every record produced by `processCsv` starts with `latestForDate = false`
and an index entry mirroring the payload meta; and for any list of such records,
`annotateLatest` leaves every payload unchanged and, for each snapshot date that
occurs, marks exactly one record of that date with `latestForDate = true`, namely
one whose `uploadedAt` is maximal among the records sharing that date. -/
theorem latest_for_date_unique :
    (∀ (file : FileInput) (ex rest : ExistingSnapshots) (rec : SnapshotRecord),
        processCsv file ex = Except.ok (rec, rest) →
          rec.indexEntry.latestForDate = false
          ∧ rec.indexEntry.snapshotDate = rec.payload.meta.snapshotDate
          ∧ rec.indexEntry.uploadedAt = rec.payload.meta.uploadedAt)
    ∧ ∀ (records : List SnapshotRecord),
        (∀ r ∈ records, r.indexEntry.latestForDate = false) →
        ((annotateLatest records).map (fun r => r.payload) =
          records.map (fun r => r.payload))
        ∧ ∀ d ∈ records.map (fun r => r.payload.meta.snapshotDate),
            ((annotateLatest records).countP
                (fun r => r.payload.meta.snapshotDate == d && r.indexEntry.latestForDate)) = 1
            ∧ ∀ r ∈ annotateLatest records,
                r.payload.meta.snapshotDate = d → r.indexEntry.latestForDate = true →
                ∀ r' ∈ annotateLatest records, r'.payload.meta.snapshotDate = d →
                  r'.payload.meta.uploadedAt ≤ r.payload.meta.uploadedAt := by
  constructor
  · intro file ex rest rec h
    unfold processCsv at h
    cases hd : deriveSnapshotDate file.fileName with
    | none =>
      rw [hd] at h
      exact absurd h (by simp)
    | some d =>
      rw [hd] at h
      dsimp only at h
      rw [Except.ok.injEq, Prod.mk.injEq] at h
      obtain ⟨h1, _⟩ := h
      subst h1
      exact ⟨rfl, rfl, rfl⟩
  · intro records hflags
    unfold annotateLatest
    dsimp only
    set chosen := (dedupFirst (records.map (fun r => r.payload.meta.snapshotDate))).filterMap
      (chosenIdx records) with hchosen
    have hsteppay : ∀ (p : ℕ × SnapshotRecord),
        (if p.1 ∈ chosen then setLatest p.2 else p.2).payload = p.2.payload := by
      intro p
      split_ifs <;> rfl
    constructor
    · have hcomp : ((fun r : SnapshotRecord => r.payload) ∘
          fun p : ℕ × SnapshotRecord => if p.1 ∈ chosen then setLatest p.2 else p.2) =
          (fun p : ℕ × SnapshotRecord => p.2.payload) := by
        funext p
        exact hsteppay p
      rw [List.map_map, hcomp]
      rw [show (fun p : ℕ × SnapshotRecord => p.2.payload) =
        ((fun r : SnapshotRecord => r.payload) ∘ Prod.snd) from rfl]
      rw [← List.map_map, List.enum_map_snd]
    · intro d hd
      obtain ⟨i0, hi0⟩ := chosenIdx_isSome records d hd
      obtain ⟨r0, hr0enum, hr0date, hr0max⟩ := chosenIdx_spec records d i0 hi0
      have hi0chosen : i0 ∈ chosen := by
        rw [hchosen]
        exact List.mem_filterMap.2 ⟨d, (mem_dedupFirst _ d).2 hd, hi0⟩
      constructor
      · rw [List.countP_map]
        apply countP_eq_one_of_unique _ records.enum (i0, r0) hr0enum
        · simp only [Function.comp_apply]
          rw [if_pos hi0chosen]
          simp only [Bool.and_eq_true, beq_iff_eq]
          exact ⟨hr0date, rfl⟩
        · rintro ⟨j, rj⟩ hx hpx
          simp only [Function.comp_apply] at hpx
          by_cases hj : j ∈ chosen
          · rw [if_pos hj] at hpx
            simp only [Bool.and_eq_true, beq_iff_eq] at hpx
            have hdate : rj.payload.meta.snapshotDate = d := hpx.1
            obtain ⟨d1, hd1mem, hd1⟩ := List.mem_filterMap.1 (hchosen ▸ hj)
            obtain ⟨r1, hr1enum, hr1date, _⟩ := chosenIdx_spec records d1 j hd1
            obtain rfl : rj = r1 := enum_functional records j rj r1 hx hr1enum
            have hd1d : d1 = d := hr1date.symm.trans hdate
            rw [hd1d] at hd1
            have hji : j = i0 := by
              have h2 := hd1.symm.trans hi0
              injection h2
            subst hji
            obtain rfl : rj = r0 := enum_functional records j rj r0 hx hr0enum
            rfl
          · exfalso
            rw [if_neg hj] at hpx
            simp only [Bool.and_eq_true, beq_iff_eq] at hpx
            have hmemr : rj ∈ records := enum_snd_mem records j rj hx
            rw [hflags rj hmemr] at hpx
            exact Bool.false_ne_true hpx.2
        · have hnodup : records.enum.Nodup := (List.nodup_enum_map_fst records).of_map _
          exact le_of_eq (List.count_eq_one_of_mem hnodup hr0enum)
      · intro r hrmem hrdate hrflag r' hr'mem hr'date
        obtain ⟨p, hp, rfl⟩ := List.mem_map.1 hrmem
        obtain ⟨q, hq, rfl⟩ := List.mem_map.1 hr'mem
        rcases p with ⟨j, rj⟩
        rcases q with ⟨k, rk⟩
        have hj : j ∈ chosen := by
          by_contra hj
          rw [if_neg hj] at hrflag
          rw [hflags rj (enum_snd_mem records j rj hp)] at hrflag
          exact Bool.false_ne_true hrflag
        have hdate : rj.payload.meta.snapshotDate = d := by
          rw [if_pos hj] at hrdate
          exact hrdate
        obtain ⟨d1, hd1mem, hd1⟩ := List.mem_filterMap.1 (hchosen ▸ hj)
        obtain ⟨r1, hr1enum, hr1date, _⟩ := chosenIdx_spec records d1 j hd1
        obtain rfl : rj = r1 := enum_functional records j rj r1 hp hr1enum
        have hd1d : d1 = d := hr1date.symm.trans hdate
        rw [hd1d] at hd1
        have hji : j = i0 := by
          have h2 := hd1.symm.trans hi0
          injection h2
        subst hji
        obtain rfl : rj = r0 := enum_functional records j rj r0 hp hr0enum
        have hkdate : rk.payload.meta.snapshotDate = d := by
          rw [hsteppay (k, rk)] at hr'date
          exact hr'date
        have hkgrp : (k, rk) ∈ groupFor records d :=
          (mem_groupFor records d k rk).2 ⟨hq, hkdate⟩
        have hle := hr0max (k, rk) hkgrp
        rcases (recordLe_iff rk rj).1 hle with hlt | ⟨_, hup⟩
        · rw [hkdate, hr0date] at hlt
          exact absurd hlt (lt_irrefl d)
        · rw [show ((if (k, rk).1 ∈ chosen then setLatest (k, rk).2 else
            (k, rk).2).payload.meta.uploadedAt) = rk.payload.meta.uploadedAt from by
              rw [hsteppay (k, rk)]]
          rw [show ((if (j, rj).1 ∈ chosen then setLatest (j, rj).2 else
            (j, rj).2).payload.meta.uploadedAt) = rj.payload.meta.uploadedAt from by
              rw [hsteppay (j, rj)]]
          exact hup

theorem latest_for_date_unique_witness :
    ((annotateLatest
        [⟨⟨⟨"2025-09-30", "2025-09-30T00:00:00.000Z", "stock-items_30_09_2025.csv"⟩, []⟩,
          "2025-09-30-snapshot.json",
          ⟨"2025-09-30", "2025-09-30T00:00:00.000Z", "stock-items_30_09_2025.csv",
            "snapshots/2025-09-30-snapshot.json", false, 0, 0⟩⟩]).countP
      (fun r => r.payload.meta.snapshotDate == "2025-09-30" && r.indexEntry.latestForDate)) = 1 :=
  ((latest_for_date_unique.2
      [⟨⟨⟨"2025-09-30", "2025-09-30T00:00:00.000Z", "stock-items_30_09_2025.csv"⟩, []⟩,
        "2025-09-30-snapshot.json",
        ⟨"2025-09-30", "2025-09-30T00:00:00.000Z", "stock-items_30_09_2025.csv",
          "snapshots/2025-09-30-snapshot.json", false, 0, 0⟩⟩]
      (by decide)).2 "2025-09-30" (by decide)).1
